import Mathlib

/-!
Verification of the Renesas R-Car I2C bus driver (drivers/i2c/busses/i2c-rcar.c).

The development shallowly embeds the driver's pure computations and its
interrupt-driven transfer state machine:

* the clock calculator `rcar_i2c_clock_calculate` is embedded as a pure
  function over `ℕ` with the C `u32` wraparound made explicit (`% 2^32` at
  each place the C arithmetic is 32-bit);
* the transfer state machine (`rcar_i2c_irq` together with the helpers
  `rcar_i2c_irq_send`, `rcar_i2c_irq_recv`, `rcar_i2c_dma`,
  `rcar_i2c_dma_callback`, `rcar_i2c_prepare_msg`, `rcar_i2c_next_msg`,
  `rcar_i2c_first_msg`) is embedded as a step function on an explicit
  state record, fed by an event type (one event per prioritized status
  condition of the hardware), producing the updated state plus the ordered
  list of register accesses the C code performs.
-/

namespace RcarI2c

/-! ## Controller generations -/

inductive RcarType
  | gen1 | gen2 | gen3 | gen4
deriving DecidableEq

/-- Numeric value of the `rcar_i2c_type` enum, used for the `<` / `>=`
comparisons the C code performs on `priv->devtype`. -/
def RcarType.code : RcarType → ℕ
  | .gen1 => 0
  | .gen2 => 1
  | .gen3 => 2
  | .gen4 => 3

/-! ## u32 arithmetic helpers

The clock calculation is done in C `u32` arithmetic ( `unsigned long rate`
is range-restricted by hypothesis in the theorems).  `u32sub` is 32-bit
wrapping subtraction; the two rounding division macros wrap their additions
at `2^32` exactly as the C expressions do. -/

def U32 : ℕ := 2 ^ 32

def u32sub (a b : ℕ) : ℕ := (a + (U32 - b % U32)) % U32

/-- `DIV_ROUND_UP(n, d)` on `u32` operands. -/
def divRoundUp32 (n d : ℕ) : ℕ := ((n + d - 1) % U32) / d

/-- `DIV_ROUND_CLOSEST(n, d)` on unsigned `u32` operands. -/
def divRoundClosest32 (n d : ℕ) : ℕ := ((n + d / 2) % U32) / d

/-! ## Clock calculator (`rcar_i2c_clock_calculate`) -/

def I2C_MAX_FAST_MODE_FREQ : ℕ := 400000

/-- `RCAR_DEFAULT_SMD`: the default SCL mask duration. -/
def RCAR_DEFAULT_SMD : ℕ := 20

/-- The divider register values produced by the clock calculator and cached
on the context: `icccr`, and for Gen3+ the high period `schd`, low period
`scld` and mask duration `smd`, plus the fast-mode-plus decision. -/
structure ClockCfg where
  icccr : ℕ
  schd : ℕ
  scld : ℕ
  smd : ℕ
  fmplus : Bool
deriving DecidableEq

/-- Width of the CDF pre-divider field: 2 bits on Gen1, 3 bits later. -/
def rcar_cdf_width (t : RcarType) : ℕ := if t = .gen1 then 2 else 3

/-- `cdf = rate / 20000000` (truncated to `u32` on assignment). -/
def rcar_cdf (rate : ℕ) : ℕ := (rate / 20000000) % U32

/-- `ick = rate / (devtype < GEN3 ? cdf + 1 : 1)` (truncated to `u32`). -/
def rcar_ick (t : RcarType) (rate cdf : ℕ) : ℕ :=
  (rate / (if t.code < 2 then cdf + 1 else 1)) % U32

/-- The correction term `round`: `F[(ticf + tr + intd) * ick]` computed by
the two chained rounding divisions of the source. -/
def rcar_round (ick sum : ℕ) : ℕ :=
  divRoundClosest32 ((divRoundClosest32 ick 1000000 * sum) % U32) 1000

/-- Legacy-family divider: `SCGD = DIV_ROUND_UP(DIV_ROUND_UP(ick, SCL) - 20 - round, 8)`. -/
def rcar_legacy_scgd (ick f round : ℕ) : ℕ :=
  divRoundUp32 (u32sub (u32sub (divRoundUp32 ick f) 20) round) 8

/-- Modern-family base value: `x = DIV_ROUND_UP(DIV_ROUND_UP(rate, SCL) - 8 - 2*SMD - round, 9)`.
The outer `DIV_ROUND_UP` is on `u32`; the inner one is on `unsigned long`
and truncated on assignment to the `u32` variable `x`. -/
def rcar_modern_x (rate f round smd : ℕ) : ℕ :=
  divRoundUp32 (u32sub (u32sub (u32sub (((rate + f - 1) / f) % U32) 8) (2 * smd)) round) 9

/-- `rcar_i2c_clock_calculate`: `none` models the `-EINVAL` error return,
`some cfg` the register values stored into the context on success.
The three timing parameters are the `i2c_timings` fall/rise/internal-delay
values (defaults 35/200/50 ns in the source). -/
def rcar_i2c_clock_calculate (t : RcarType) (rate busFreq fallNs riseNs delayNs : ℕ) :
    Option ClockCfg :=
  let smd := RCAR_DEFAULT_SMD
  let f := if busFreq = 0 then 1 else busFreq
  let cdf := rcar_cdf rate
  let w := rcar_cdf_width t
  if 2 ^ w ≤ cdf then none
  else
    let fmplus : Bool := decide (I2C_MAX_FAST_MODE_FREQ < busFreq ∧ 3 ≤ t.code)
    let ick := rcar_ick t rate cdf
    let sum := (fallNs + riseNs + delayNs) % U32
    let round := rcar_round ick sum
    if t.code < 2 then
      let scgd := rcar_legacy_scgd ick f round
      if 0x3f < scgd then none
      else some { icccr := scgd * 2 ^ w + cdf, schd := 0, scld := 0, smd := smd,
                  fmplus := fmplus }
    else
      let x := rcar_modern_x rate f round smd
      if x = 0 ∨ 0xffff < x * 5 then none
      else some { icccr := cdf, schd := 4 * x, scld := 5 * x,
                  smd := if 4 * x ≤ smd then 4 * x - 1 else smd, fmplus := fmplus }

/-- Bus frequency implied by legacy-family register values:
`SCL = ick / (20 + 8 * SCGD + round)` (the source's own formula). -/
def rcar_legacy_freq (ick scgd round : ℕ) : ℕ := ick / (20 + 8 * scgd + round)

/-- Bus frequency implied by modern-family register values:
`SCL = clkp / (8 + 2*SMD + SCLD + SCHD + round)` (the source's own formula). -/
def rcar_modern_freq (rate smd scld schd round : ℕ) : ℕ :=
  rate / (8 + 2 * smd + scld + schd + round)

/-! ### Arithmetic helper lemmas -/

lemma U32_eq : U32 = 4294967296 := rfl

lemma u32sub_chain2 (a b1 b2 : ℕ) (ha : a < U32) (hb1 : b1 < U32) (hb2 : b2 < U32)
    (hb : b1 + b2 < U32) :
    u32sub (u32sub a b1) b2 =
      if b1 + b2 ≤ a then a - (b1 + b2) else a + U32 - (b1 + b2) := by
  unfold u32sub
  rw [U32_eq] at *
  split <;> omega

lemma u32sub_chain3 (a b1 b2 b3 : ℕ) (ha : a < U32) (hb1 : b1 < U32) (hb2 : b2 < U32)
    (hb3 : b3 < U32) (hb : b1 + b2 + b3 < U32) :
    u32sub (u32sub (u32sub a b1) b2) b3 =
      if b1 + b2 + b3 ≤ a then a - (b1 + b2 + b3) else a + U32 - (b1 + b2 + b3) := by
  unfold u32sub
  rw [U32_eq] at *
  split <;> omega

lemma divRoundUp32_eval (n d : ℕ) (hnd : n + d - 1 < U32) :
    divRoundUp32 n d = (n + d - 1) / d := by
  unfold divRoundUp32; rw [Nat.mod_eq_of_lt hnd]

lemma le_ceil_mul (n f : ℕ) (hf : 0 < f) : n ≤ (n + f - 1) / f * f := by
  have h1 := Nat.div_add_mod (n + f - 1) f
  have h2 : (n + f - 1) % f < f := Nat.mod_lt _ hf
  rw [mul_comm]
  set m := f * ((n + f - 1) / f) with hm
  omega

lemma nat_div_le_of_le_mul {n D f : ℕ} (hD : 0 < D) (h : n ≤ D * f) : n / D ≤ f :=
  le_trans (Nat.div_le_div_right h) (le_of_eq (Nat.mul_div_cancel_left f hD))

lemma round_le_46 {ick : ℕ} (h : ick ≤ 160000000) : rcar_round ick 285 ≤ 46 := by
  unfold rcar_round divRoundClosest32
  rw [U32_eq]
  have h1 : (ick + 1000000 / 2) % 4294967296 = ick + 500000 := by omega
  rw [h1]
  have h2 : (ick + 500000) / 1000000 ≤ 160 := by omega
  have h3 : (ick + 500000) / 1000000 * 285 ≤ 45600 := by omega
  have h4 : (ick + 500000) / 1000000 * 285 % 4294967296 =
      (ick + 500000) / 1000000 * 285 := by omega
  rw [h4]
  have h5 : ((ick + 500000) / 1000000 * 285 + 1000 / 2) % 4294967296 =
      (ick + 500000) / 1000000 * 285 + 1000 / 2 := by omega
  rw [h5]
  omega

/-- Core of the legacy-family safety argument: whenever the computed `SCGD`
passes the 6-bit check, the implied frequency is at or below the target. -/
lemma legacy_scl_le {ick f round : ℕ} (hick : ick ≤ 160000000) (hf : 0 < f)
    (hf2 : f < U32) (hround : round ≤ 46)
    (hscgd : rcar_legacy_scgd ick f round ≤ 63) :
    rcar_legacy_freq ick (rcar_legacy_scgd ick f round) round ≤ f := by
  rcases le_or_lt ick f with hle | hgt
  · exact le_trans (Nat.div_le_self _ _) hle
  -- now f < ick, so the first DIV_ROUND_UP does not wrap
  have hnw : ick + f - 1 < U32 := by rw [U32_eq]; omega
  have hq : divRoundUp32 ick f = (ick + f - 1) / f := by
    unfold divRoundUp32; rw [Nat.mod_eq_of_lt hnw]
  unfold rcar_legacy_scgd at hscgd ⊢
  unfold rcar_legacy_freq
  rw [hq] at hscgd ⊢
  set q := (ick + f - 1) / f with hqdef
  have hq1 : 1 ≤ q := by
    rw [hqdef]
    have hfle : f ≤ ick + f - 1 := by omega
    calc 1 = f / f := (Nat.div_self hf).symm
    _ ≤ (ick + f - 1) / f := Nat.div_le_div_right hfle
  have hqle : q ≤ ick + f - 1 := Nat.div_le_self _ _
  have hqU : q < U32 := lt_of_le_of_lt hqle hnw
  have hmul : ick ≤ q * f := le_ceil_mul ick f hf
  have hch : u32sub (u32sub q 20) round =
      if 20 + round ≤ q then q - (20 + round) else q + U32 - (20 + round) :=
    u32sub_chain2 q 20 round hqU (by rw [U32_eq]; omega) (by rw [U32_eq]; omega)
      (by rw [U32_eq]; omega)
  rw [hch] at hscgd ⊢
  rcases le_or_lt (20 + round) q with hA | hB
  · -- no wraparound in the subtraction chain
    rw [if_pos hA] at hscgd ⊢
    set a := q - (20 + round) with hadef
    have escgd : divRoundUp32 a 8 = (a + 8 - 1) / 8 :=
      divRoundUp32_eval a 8 (by rw [U32_eq]; omega)
    rw [escgd]
    exact nat_div_le_of_le_mul (by omega)
      (le_trans hmul (Nat.mul_le_mul_right f (by omega)))
  · -- target unreachable without wrapping: the subtraction chain wraps
    rw [if_neg (by omega)] at hscgd ⊢
    rcases le_or_lt (20 + round) (q + 7) with hd | hd
    · -- deficit at most 7: DIV_ROUND_UP wraps back to SCGD = 0
      have h0 : divRoundUp32 (q + U32 - (20 + round)) 8 = 0 := by
        unfold divRoundUp32
        rw [U32_eq] at *
        omega
      rw [h0]
      exact nat_div_le_of_le_mul (by omega)
        (le_trans hmul (Nat.mul_le_mul_right f (by omega)))
    · -- deficit at least 8: SCGD is huge, contradicting the 6-bit check
      exfalso
      unfold divRoundUp32 at hscgd
      rw [U32_eq] at *
      omega

/-- Core of the modern-family safety argument with the default (unclamped)
mask duration: whenever `x` passes the range checks, the implied frequency
is at or below the target. -/
lemma modern_scl_le {rate f round : ℕ} (hrate : rate ≤ 160000000) (hf : 0 < f)
    (hf2 : f < U32) (hround : round ≤ 46)
    (hx0 : rcar_modern_x rate f round RCAR_DEFAULT_SMD ≠ 0)
    (hx : rcar_modern_x rate f round RCAR_DEFAULT_SMD * 5 ≤ 0xffff) :
    rate / (48 + 9 * rcar_modern_x rate f round RCAR_DEFAULT_SMD + round) ≤ f := by
  rcases le_or_lt rate f with hle | hgt
  · exact le_trans (Nat.div_le_self _ _) hle
  have hnw : rate + f - 1 < U32 := by rw [U32_eq]; omega
  have hqm : ((rate + f - 1) / f) % U32 = (rate + f - 1) / f :=
    Nat.mod_eq_of_lt (lt_of_le_of_lt (Nat.div_le_self _ _) hnw)
  unfold rcar_modern_x RCAR_DEFAULT_SMD at hx0 hx ⊢
  rw [hqm] at hx0 hx ⊢
  set q := (rate + f - 1) / f with hqdef
  have hq1 : 1 ≤ q := by
    rw [hqdef]
    have hfle : f ≤ rate + f - 1 := by omega
    calc 1 = f / f := (Nat.div_self hf).symm
    _ ≤ (rate + f - 1) / f := Nat.div_le_div_right hfle
  have hqle : q ≤ rate + f - 1 := Nat.div_le_self _ _
  have hqU : q < U32 := lt_of_le_of_lt hqle hnw
  have hmul : rate ≤ q * f := le_ceil_mul rate f hf
  have hch : u32sub (u32sub (u32sub q 8) (2 * 20)) round =
      if 8 + 2 * 20 + round ≤ q then q - (8 + 2 * 20 + round)
      else q + U32 - (8 + 2 * 20 + round) :=
    u32sub_chain3 q 8 (2 * 20) round hqU (by rw [U32_eq]; omega)
      (by rw [U32_eq]; omega) (by rw [U32_eq]; omega) (by rw [U32_eq]; omega)
  rw [hch] at hx0 hx ⊢
  rcases le_or_lt (8 + 2 * 20 + round) q with hA | hB
  · rw [if_pos hA] at hx0 hx ⊢
    set a := q - (8 + 2 * 20 + round) with hadef
    have ex : divRoundUp32 a 9 = (a + 9 - 1) / 9 :=
      divRoundUp32_eval a 9 (by rw [U32_eq]; omega)
    rw [ex]
    exact nat_div_le_of_le_mul (by omega)
      (le_trans hmul (Nat.mul_le_mul_right f (by omega)))
  · exfalso
    rw [if_neg (by omega)] at hx0 hx
    rcases le_or_lt (8 + 2 * 20 + round) (q + 8) with hd | hd
    · -- deficit at most 8: x wraps back to 0, caught by the `x == 0` check
      have h0 : divRoundUp32 (q + U32 - (8 + 2 * 20 + round)) 9 = 0 := by
        unfold divRoundUp32
        rw [U32_eq] at *
        omega
      exact hx0 h0
    · -- deficit at least 9: x is huge, caught by the 16-bit check
      unfold divRoundUp32 at hx
      rw [U32_eq] at *
      omega

/-! ### Clock calculator theorems -/

/-- C1 (amended).  For every reference rate and requested bus frequency on
which the clock calculator succeeds: in the legacy formula family the bus
frequency implied by the produced register values (`SCL = ick /
(20 + 8*SCGD + round)`) is at or below the requested frequency; in the
modern family the frequency implied with the default (unclamped) mask
duration (`SCL = rate / (8 + 2*SMD + SCLD + SCHD + round)` at `SMD = 20`)
is at or below the requested frequency, and whenever the mask-duration
clamp does not trigger (default SMD below the high period) the frequency
implied by the final register values is also at or below the request.
(The original claim, which includes the clamped mask duration in the
implied frequency, fails: see the counterexample.) -/
theorem rcar_clock_freq_le_requested (t : RcarType) (rate busFreq : ℕ) (cfg : ClockCfg)
    (hrate : rate < U32) (hf : 0 < busFreq) (hfU : busFreq < U32)
    (h : rcar_i2c_clock_calculate t rate busFreq 35 200 50 = some cfg) :
    (t.code < 2 →
      rcar_legacy_freq (rcar_ick t rate (cfg.icccr % 2 ^ rcar_cdf_width t))
        (cfg.icccr / 2 ^ rcar_cdf_width t)
        (rcar_round (rcar_ick t rate (cfg.icccr % 2 ^ rcar_cdf_width t)) 285) ≤ busFreq) ∧
    (2 ≤ t.code →
      rcar_modern_freq rate RCAR_DEFAULT_SMD cfg.scld cfg.schd (rcar_round rate 285) ≤ busFreq ∧
      (RCAR_DEFAULT_SMD < cfg.schd →
        rcar_modern_freq rate cfg.smd cfg.scld cfg.schd (rcar_round rate 285) ≤ busFreq)) := by
  simp only [rcar_i2c_clock_calculate] at h
  have hfI : (if busFreq = 0 then 1 else busFreq) = busFreq :=
    if_neg (Nat.pos_iff_ne_zero.mp hf)
  have hsum : (35 + 200 + 50) % U32 = 285 := rfl
  rw [hfI, hsum] at h
  by_cases hcdf : 2 ^ rcar_cdf_width t ≤ rcar_cdf rate
  · rw [if_pos hcdf] at h; exact Option.noConfusion h
  rw [if_neg hcdf] at h
  have hcdfv : rcar_cdf rate = rate / 20000000 := by
    unfold rcar_cdf
    exact Nat.mod_eq_of_lt (lt_of_le_of_lt (Nat.div_le_self _ _) hrate)
  have hw3 : rcar_cdf_width t ≤ 3 := by
    unfold rcar_cdf_width; split <;> omega
  have hcdf8 : rcar_cdf rate < 8 := by
    have h1 : (2 : ℕ) ^ rcar_cdf_width t ≤ 2 ^ 3 := Nat.pow_le_pow_right (by norm_num) hw3
    have h2 := lt_of_not_le hcdf
    omega
  have hrb : rate ≤ 160000000 := by
    rw [hcdfv] at hcdf8; omega
  have hickb : rcar_ick t rate (rcar_cdf rate) ≤ 160000000 := by
    unfold rcar_ick
    have h1 : rate / (if t.code < 2 then rcar_cdf rate + 1 else 1) ≤ rate :=
      Nat.div_le_self _ _
    have h2 := Nat.mod_le (rate / (if t.code < 2 then rcar_cdf rate + 1 else 1)) U32
    omega
  constructor
  · -- legacy family
    intro hlt
    rw [if_pos hlt] at h
    by_cases hsc : 0x3f < rcar_legacy_scgd (rcar_ick t rate (rcar_cdf rate)) busFreq
        (rcar_round (rcar_ick t rate (rcar_cdf rate)) 285)
    · rw [if_pos hsc] at h; exact Option.noConfusion h
    rw [if_neg hsc] at h
    have hcfg := Option.some.inj h
    have hcdflt : rcar_cdf rate < 2 ^ rcar_cdf_width t := lt_of_not_le hcdf
    have hic : cfg.icccr =
        rcar_legacy_scgd (rcar_ick t rate (rcar_cdf rate)) busFreq
          (rcar_round (rcar_ick t rate (rcar_cdf rate)) 285) * 2 ^ rcar_cdf_width t +
        rcar_cdf rate := by
      rw [← hcfg]
    have hmod : cfg.icccr % 2 ^ rcar_cdf_width t = rcar_cdf rate := by
      rw [hic, mul_comm, Nat.mul_add_mod, Nat.mod_eq_of_lt hcdflt]
    have hdiv : cfg.icccr / 2 ^ rcar_cdf_width t =
        rcar_legacy_scgd (rcar_ick t rate (rcar_cdf rate)) busFreq
          (rcar_round (rcar_ick t rate (rcar_cdf rate)) 285) := by
      rw [hic, mul_comm, Nat.mul_add_div (pow_pos (by norm_num) _),
        Nat.div_eq_of_lt hcdflt, add_zero]
    rw [hmod, hdiv]
    exact legacy_scl_le hickb hf hfU (round_le_46 hickb) (by omega)
  · -- modern family
    intro hge
    have hlt : ¬ t.code < 2 := by omega
    rw [if_neg hlt] at h
    have hickm : rcar_ick t rate (rcar_cdf rate) = rate := by
      unfold rcar_ick
      rw [if_neg hlt, Nat.div_one, Nat.mod_eq_of_lt hrate]
    rw [hickm] at h
    by_cases hx : rcar_modern_x rate busFreq (rcar_round rate 285) RCAR_DEFAULT_SMD = 0 ∨
        0xffff < rcar_modern_x rate busFreq (rcar_round rate 285) RCAR_DEFAULT_SMD * 5
    · rw [if_pos hx] at h; exact Option.noConfusion h
    rw [if_neg hx] at h
    push_neg at hx
    have hcfg := Option.some.inj h
    have hschd : cfg.schd =
        4 * rcar_modern_x rate busFreq (rcar_round rate 285) RCAR_DEFAULT_SMD := by
      rw [← hcfg]
    have hscld : cfg.scld =
        5 * rcar_modern_x rate busFreq (rcar_round rate 285) RCAR_DEFAULT_SMD := by
      rw [← hcfg]
    have hsmd : cfg.smd =
        (if 4 * rcar_modern_x rate busFreq (rcar_round rate 285) RCAR_DEFAULT_SMD ≤
            RCAR_DEFAULT_SMD then
          4 * rcar_modern_x rate busFreq (rcar_round rate 285) RCAR_DEFAULT_SMD - 1
        else RCAR_DEFAULT_SMD) := by
      rw [← hcfg]
    have hcore := modern_scl_le hrb hf hfU (round_le_46 hrb) hx.1 hx.2
    have hdiveq : 8 + 2 * RCAR_DEFAULT_SMD +
        5 * rcar_modern_x rate busFreq (rcar_round rate 285) RCAR_DEFAULT_SMD +
        4 * rcar_modern_x rate busFreq (rcar_round rate 285) RCAR_DEFAULT_SMD +
        rcar_round rate 285 =
        48 + 9 * rcar_modern_x rate busFreq (rcar_round rate 285) RCAR_DEFAULT_SMD +
        rcar_round rate 285 := by
      unfold RCAR_DEFAULT_SMD; omega
    constructor
    · rw [hschd, hscld]
      unfold rcar_modern_freq
      rw [hdiveq]
      exact hcore
    · intro hclamp
      rw [hschd] at hclamp
      have hnc : ¬ 4 * rcar_modern_x rate busFreq (rcar_round rate 285) RCAR_DEFAULT_SMD ≤
          RCAR_DEFAULT_SMD := by
        unfold RCAR_DEFAULT_SMD at hclamp ⊢; omega
      rw [hsmd, if_neg hnc, hschd, hscld]
      unfold rcar_modern_freq
      rw [hdiveq]
      exact hcore

/-- Counterexample to C1 as stated: at reference rate 5800 Hz and requested
bus frequency 100 Hz the Gen3 calculator succeeds, clamps the mask duration
to SMD = SCHD - 1 = 7, and the bus frequency implied by the final register
values — by the source's own formula `SCL = rate / (8 + 2*SMD + SCLD + SCHD
+ round)` — is 145 Hz, strictly above the requested 100 Hz. -/
theorem rcar_clock_freq_counterexample :
    rcar_i2c_clock_calculate .gen3 5800 100 35 200 50 =
      some { icccr := 0, schd := 8, scld := 10, smd := 7, fmplus := false } ∧
    rcar_modern_freq 5800 7 10 8 (rcar_round 5800 285) = 145 ∧
    ¬ rcar_modern_freq 5800 7 10 8 (rcar_round 5800 285) ≤ 100 :=
  ⟨by decide, by decide, by decide⟩

/-- Witness for C1 at Gen2, 100 MHz reference clock, 100 kHz request
(the calculator yields ICCCR = 149, i.e. SCGD = 18, CDF = 5). -/
theorem rcar_clock_freq_le_requested_witness :
    rcar_legacy_freq (rcar_ick .gen2 100000000 (149 % 2 ^ rcar_cdf_width .gen2))
      (149 / 2 ^ rcar_cdf_width .gen2)
      (rcar_round (rcar_ick .gen2 100000000 (149 % 2 ^ rcar_cdf_width .gen2)) 285)
      ≤ 100000 :=
  (rcar_clock_freq_le_requested .gen2 100000000 100000
      { icccr := 149, schd := 0, scld := 0, smd := 20, fmplus := false }
      (by decide) (by decide) (by decide) (by decide)).1 (by decide)

/-- C7.  The calculator fails with the explicit range error (`-EINVAL`,
modelled as `none`) exactly when a divider field would not fit its bit
width: the pre-divider CDF does not fit its 2-bit (Gen1) / 3-bit (later)
field, or — legacy family — SCGD exceeds its 6-bit field, or — modern
family — `x` is zero or the low-period value `5*x` exceeds 16 bits.  On
success every produced field fits its width: for the legacy family the
ICCCR value splits into SCGD at most 63 and a fitting CDF (so ICCCR fits
`cdf_width + 6` bits), and for the modern family the high and low periods
fit 16 bits and the mask duration is at most the default 20.  (In the one
input window where the `u32` subtraction wraps by at most 7/8 units, the
wrapped rounding division yields SCGD = 0 / `x` = 0: the legacy value 0
still implies a frequency at or below the request, and the modern case is
rejected by the `x == 0` check, so no silently wrong value survives.) -/
theorem rcar_clock_fields_fit (t : RcarType) (rate busFreq : ℕ) (hrate : rate < U32)
    (hf : 0 < busFreq) :
    (rcar_i2c_clock_calculate t rate busFreq 35 200 50 = none ↔
      2 ^ rcar_cdf_width t ≤ rcar_cdf rate ∨
      (t.code < 2 ∧ rcar_cdf rate < 2 ^ rcar_cdf_width t ∧
        63 < rcar_legacy_scgd (rcar_ick t rate (rcar_cdf rate)) busFreq
          (rcar_round (rcar_ick t rate (rcar_cdf rate)) 285)) ∨
      (2 ≤ t.code ∧ rcar_cdf rate < 2 ^ rcar_cdf_width t ∧
        (rcar_modern_x rate busFreq (rcar_round rate 285) RCAR_DEFAULT_SMD = 0 ∨
          0xffff < rcar_modern_x rate busFreq (rcar_round rate 285) RCAR_DEFAULT_SMD * 5))) ∧
    (∀ cfg : ClockCfg, rcar_i2c_clock_calculate t rate busFreq 35 200 50 = some cfg →
      rcar_cdf rate < 2 ^ rcar_cdf_width t ∧
      (t.code < 2 →
        cfg.icccr / 2 ^ rcar_cdf_width t ≤ 63 ∧
        cfg.icccr % 2 ^ rcar_cdf_width t = rcar_cdf rate ∧
        cfg.icccr < 2 ^ (rcar_cdf_width t + 6)) ∧
      (2 ≤ t.code →
        cfg.icccr = rcar_cdf rate ∧ cfg.schd ≤ 0xffff ∧ cfg.scld ≤ 0xffff ∧
        cfg.smd ≤ RCAR_DEFAULT_SMD)) := by
  have hfI : (if busFreq = 0 then 1 else busFreq) = busFreq :=
    if_neg (Nat.pos_iff_ne_zero.mp hf)
  have hsum : (35 + 200 + 50) % U32 = 285 := rfl
  have hickm : 2 ≤ t.code → rcar_ick t rate (rcar_cdf rate) = rate := by
    intro hge
    unfold rcar_ick
    rw [if_neg (by omega), Nat.div_one, Nat.mod_eq_of_lt hrate]
  constructor
  · constructor
    · intro h
      simp only [rcar_i2c_clock_calculate] at h
      rw [hfI, hsum] at h
      by_cases hcdf : 2 ^ rcar_cdf_width t ≤ rcar_cdf rate
      · exact Or.inl hcdf
      rw [if_neg hcdf] at h
      by_cases hlt : t.code < 2
      · rw [if_pos hlt] at h
        refine Or.inr (Or.inl ⟨hlt, lt_of_not_le hcdf, ?_⟩)
        by_cases hsc : 0x3f <
            rcar_legacy_scgd (rcar_ick t rate (rcar_cdf rate)) busFreq
              (rcar_round (rcar_ick t rate (rcar_cdf rate)) 285)
        · exact hsc
        · rw [if_neg hsc] at h; exact Option.noConfusion h
      · rw [if_neg hlt] at h
        have hge : 2 ≤ t.code := by omega
        rw [hickm hge] at h
        refine Or.inr (Or.inr ⟨hge, lt_of_not_le hcdf, ?_⟩)
        by_cases hx : rcar_modern_x rate busFreq (rcar_round rate 285) RCAR_DEFAULT_SMD = 0 ∨
            0xffff < rcar_modern_x rate busFreq (rcar_round rate 285) RCAR_DEFAULT_SMD * 5
        · exact hx
        · rw [if_neg hx] at h; exact Option.noConfusion h
    · intro h
      simp only [rcar_i2c_clock_calculate]
      rw [hfI, hsum]
      rcases h with hcdf | ⟨hlt, hcdf, hsc⟩ | ⟨hge, hcdf, hx⟩
      · rw [if_pos hcdf]
      · rw [if_neg (not_le_of_lt hcdf), if_pos hlt, if_pos hsc]
      · rw [if_neg (not_le_of_lt hcdf), if_neg (by omega), hickm hge, if_pos hx]
  · intro cfg h
    simp only [rcar_i2c_clock_calculate] at h
    rw [hfI, hsum] at h
    by_cases hcdf : 2 ^ rcar_cdf_width t ≤ rcar_cdf rate
    · rw [if_pos hcdf] at h; exact Option.noConfusion h
    rw [if_neg hcdf] at h
    have hcdflt : rcar_cdf rate < 2 ^ rcar_cdf_width t := lt_of_not_le hcdf
    refine ⟨hcdflt, ?_, ?_⟩
    · intro hlt
      rw [if_pos hlt] at h
      by_cases hsc : 0x3f < rcar_legacy_scgd (rcar_ick t rate (rcar_cdf rate)) busFreq
          (rcar_round (rcar_ick t rate (rcar_cdf rate)) 285)
      · rw [if_pos hsc] at h; exact Option.noConfusion h
      rw [if_neg hsc] at h
      have hcfg := Option.some.inj h
      have hic : cfg.icccr =
          rcar_legacy_scgd (rcar_ick t rate (rcar_cdf rate)) busFreq
            (rcar_round (rcar_ick t rate (rcar_cdf rate)) 285) * 2 ^ rcar_cdf_width t +
          rcar_cdf rate := by
        rw [← hcfg]
      have hmod : cfg.icccr % 2 ^ rcar_cdf_width t = rcar_cdf rate := by
        rw [hic, mul_comm, Nat.mul_add_mod, Nat.mod_eq_of_lt hcdflt]
      have hdiv : cfg.icccr / 2 ^ rcar_cdf_width t =
          rcar_legacy_scgd (rcar_ick t rate (rcar_cdf rate)) busFreq
            (rcar_round (rcar_ick t rate (rcar_cdf rate)) 285) := by
        rw [hic, mul_comm, Nat.mul_add_div (pow_pos (by norm_num) _),
          Nat.div_eq_of_lt hcdflt, add_zero]
      refine ⟨by omega, hmod, ?_⟩
      have hb : rcar_legacy_scgd (rcar_ick t rate (rcar_cdf rate)) busFreq
            (rcar_round (rcar_ick t rate (rcar_cdf rate)) 285) * 2 ^ rcar_cdf_width t ≤
          63 * 2 ^ rcar_cdf_width t :=
        Nat.mul_le_mul_right _ (by omega)
      have hpow : 2 ^ (rcar_cdf_width t + 6) = 2 ^ rcar_cdf_width t * 64 := by
        rw [pow_add]; norm_num
      rw [hic, hpow]
      omega
    · intro hge
      rw [if_neg (by omega), hickm hge] at h
      by_cases hx : rcar_modern_x rate busFreq (rcar_round rate 285) RCAR_DEFAULT_SMD = 0 ∨
          0xffff < rcar_modern_x rate busFreq (rcar_round rate 285) RCAR_DEFAULT_SMD * 5
      · rw [if_pos hx] at h; exact Option.noConfusion h
      rw [if_neg hx] at h
      push_neg at hx
      have hcfg := Option.some.inj h
      have hi : cfg.icccr = rcar_cdf rate := by rw [← hcfg]
      have hschd : cfg.schd =
          4 * rcar_modern_x rate busFreq (rcar_round rate 285) RCAR_DEFAULT_SMD := by
        rw [← hcfg]
      have hscld : cfg.scld =
          5 * rcar_modern_x rate busFreq (rcar_round rate 285) RCAR_DEFAULT_SMD := by
        rw [← hcfg]
      have hsmd : cfg.smd =
          (if 4 * rcar_modern_x rate busFreq (rcar_round rate 285) RCAR_DEFAULT_SMD ≤
              RCAR_DEFAULT_SMD then
            4 * rcar_modern_x rate busFreq (rcar_round rate 285) RCAR_DEFAULT_SMD - 1
          else RCAR_DEFAULT_SMD) := by
        rw [← hcfg]
      have hx5 : rcar_modern_x rate busFreq (rcar_round rate 285) RCAR_DEFAULT_SMD * 5 ≤
          0xffff := hx.2
      refine ⟨hi, by omega, by omega, ?_⟩
      rw [hsmd]
      unfold RCAR_DEFAULT_SMD
      split <;> omega

/-- Witness for C7 at Gen3, 133 MHz reference clock, 400 kHz request
(the calculator yields SCHD = 112, SCLD = 140). -/
theorem rcar_clock_fields_fit_witness :
    rcar_cdf 133000000 < 2 ^ rcar_cdf_width RcarType.gen3 ∧ (112 : ℕ) ≤ 0xffff := by
  have h := (rcar_clock_fields_fit .gen3 133000000 400000 (by decide) (by decide)).2
      { icccr := 6, schd := 112, scld := 140, smd := 20, fmplus := false } (by decide)
  exact ⟨h.1, (h.2.2 (by decide)).2.1⟩

/-! ## Transfer state machine

The state record mirrors `struct rcar_i2c_priv`: the transient flag bits
(`ID_LAST_MSG` .. `ID_EPROTO`) and the persistent bits (`ID_P_NOT_ATOMIC`,
`ID_P_NO_RXDMA`) become Booleans, `pos` and `msgs_left` keep their C types
(`int` modelled as `ℕ` for the always-nonnegative byte position and `ℤ` for
the message counter, so that its claimed nonnegativity is a real statement),
the current message pointer becomes the current `Msg` plus the list of
messages still pending after it, and the scatterlist/dma_direction pair
becomes an optional `DmaSg`.  Each handler returns the successor state and
the ordered list of register accesses (plus the wake-up) it performs.

Hardware contract assumed by the step relation (and by the driver): master
events are delivered only while the transfer is not done (after `ID_DONE`
the handler has written `ICMIER = 0`, masking everything, and the atomic
poll loop has exited); no data-phase interrupt is delivered while a DMA
transfer is engaged (`ICDMAER` routes the data requests to the DMA
engine); and an address-phase-completed bit (`MAT`) only accompanies the
first interrupt of a message, when `pos = 0`. -/

/-- One `struct i2c_msg`: address, `I2C_M_RD`, `I2C_M_RECV_LEN`,
`I2C_M_DMA_SAFE`, length, and buffer contents. -/
structure Msg where
  addr : ℕ
  read : Bool
  recvLen : Bool
  dmaSafe : Bool
  len : ℕ
  buf : ℕ → ℕ

/-- The driver's single scatterlist entry: direction (`DMA_FROM_DEVICE`?),
buffer offset, and `sg_dma_len`. -/
structure DmaSg where
  fromDev : Bool
  off : ℕ
  len : ℕ
deriving DecidableEq

structure DriverState where
  lastMsg : Bool
  repAfterRd : Bool
  done : Bool
  arblost : Bool
  nack : Bool
  eproto : Bool
  notAtomic : Bool
  noRxdma : Bool
  pos : ℕ
  msg : Msg
  pending : List Msg
  msgsLeft : ℤ
  dmaSg : Option DmaSg
  devtype : RcarType
  txChanOk : Bool
  rxChanOk : Bool

/-- A register access (or the wake-up call) performed by the driver, in
program order. -/
inductive Action
  | writeICMCR (v : ℕ)
  | writeICMIER (v : ℕ)
  | writeICMSR (v : ℕ)
  | writeICMAR (v : ℕ)
  | writeICRXTX (v : ℕ)
  | writeICDMAER (v : ℕ)
  | readICRXTX
  | readICMSR
  | readICMIER
  | wake
deriving DecidableEq

/-- `MDBS | MIE | ESG` -/
def RCAR_BUS_PHASE_START : ℕ := 137
/-- `MDBS | MIE` -/
def RCAR_BUS_PHASE_DATA : ℕ := 136
/-- `MDBS | MIE | FSB` -/
def RCAR_BUS_PHASE_STOP : ℕ := 138
/-- `MNR | MAL | MST | MAT | MDE` -/
def RCAR_IRQ_SEND : ℕ := 121
/-- `MNR | MAL | MST | MAT | MDR` -/
def RCAR_IRQ_RECV : ℕ := 115
/-- `MST` -/
def RCAR_IRQ_STOP : ℕ := 16
def RCAR_MIN_DMA_LEN : ℕ := 8
def I2C_SMBUS_BLOCK_MAX : ℕ := 32
/-- master data empty (`ICMSR` bit 3) -/
def MDE : ℕ := 8
/-- master data received (`ICMSR` bit 1) -/
def MDR : ℕ := 2
/-- slave address xfer done (`ICMSR` bit 0) -/
def MAT : ℕ := 1

/-- `rcar_i2c_clear_irq`: write `~val & 0x7f` to ICMSR (`val ≤ 127` at
every use). -/
def rcar_i2c_clear_irq (v : ℕ) : Action := Action.writeICMSR (127 - v)

/-- The feasibility checks at the top of `rcar_i2c_dma`. -/
def rcar_i2c_dma_feasible (s : DriverState) : Bool :=
  s.notAtomic && (if s.msg.read then s.rxChanOk else s.txChanOk) &&
    decide (RCAR_MIN_DMA_LEN ≤ s.msg.len) && s.msg.dmaSafe &&
    !(s.msg.read && s.noRxdma)

/-- Outcome of the fallible external DMA calls inside `rcar_i2c_dma`
(map / prep_slave_sg / submit), as a nondeterministic oracle. -/
inductive DmaOutcome
  | mapFail | prepFail | submitFail | ok
deriving DecidableEq

/-- `rcar_i2c_cleanup_dma` (non-terminating variant): unmap, set
`ID_P_NO_RXDMA` on Gen3+ after a receive DMA, reset the direction and
disable the DMA-enable register last. -/
def rcar_i2c_cleanup_dma (s : DriverState) (read : Bool) : DriverState × List Action :=
  ({ s with noRxdma := s.noRxdma || (decide (2 ≤ s.devtype.code) && read),
            dmaSg := none },
   [Action.writeICDMAER 0])

/-- `rcar_i2c_dma`: returns whether DMA took over, plus the state and
register accesses.  On success the scatterlist covers the buffer interior
(`len - 2` from offset 0 for receive, `len - 1` from offset 1 for
transmit) and the matching DMA-enable bit (`RMDMAE`/`TMDMAE`) is set. -/
def rcar_i2c_dma (s : DriverState) (oc : DmaOutcome) : Bool × DriverState × List Action :=
  if rcar_i2c_dma_feasible s then
    let read := s.msg.read
    let len := if read then s.msg.len - 2 else s.msg.len - 1
    match oc with
    | .mapFail => (false, s, [])
    | .prepFail =>
        let r := rcar_i2c_cleanup_dma s read
        (false, r.1, r.2)
    | .submitFail =>
        let r := rcar_i2c_cleanup_dma s read
        (false, r.1, r.2)
    | .ok =>
        (true,
         { s with dmaSg := some { fromDev := read, off := if read then 0 else 1,
                                  len := len } },
         [Action.writeICDMAER (if read then 2 else 1)])
  else (false, s, [])

/-- `rcar_i2c_dma_callback`: advance `pos` by the scatterlist length, then
clean up. -/
def rcar_i2c_dma_callback (s : DriverState) : DriverState × List Action :=
  match s.dmaSg with
  | some sg => rcar_i2c_cleanup_dma { s with pos := s.pos + sg.len } sg.fromDev
  | none => (s, [])

/-- `rcar_i2c_prepare_msg`: reset `pos`, clear the transient flags, set
`ID_LAST_MSG` when one message is left, write the target address, the
interrupt-enable mask (non-atomic mode only) and — unless a repeated
start after a read is in progress — the start phase. -/
def rcar_i2c_prepare_msg (s : DriverState) : DriverState × List Action :=
  let read := s.msg.read
  let repStart := !s.repAfterRd
  ({ s with pos := 0, lastMsg := decide (s.msgsLeft = 1), repAfterRd := false,
            done := false, arblost := false, nack := false, eproto := false },
   [Action.writeICMAR (2 * s.msg.addr + (if read then 1 else 0))] ++
   (if s.notAtomic then
      [Action.writeICMIER (if read then RCAR_IRQ_RECV else RCAR_IRQ_SEND)] else []) ++
   (if repStart then [Action.writeICMCR RCAR_BUS_PHASE_START] else []))

/-- `rcar_i2c_first_msg`: install the message list (`msgs_left = num`),
clear ICMSR before preparing the first message. -/
def rcar_i2c_first_msg (s : DriverState) (m : Msg) (rest : List Msg) :
    DriverState × List Action :=
  let r := rcar_i2c_prepare_msg
    { s with msg := m, pending := rest, msgsLeft := 1 + (rest.length : ℤ) }
  (r.1, Action.writeICMSR 0 :: r.2)

/-- `rcar_i2c_next_msg`: `priv->msg++; priv->msgs_left--;` then prepare.
The `[]` branch corresponds to the C pointer walking past the end of the
message array; it is unreachable from any state satisfying `Inv`. -/
def rcar_i2c_next_msg (s : DriverState) : DriverState × List Action :=
  match s.pending with
  | [] => rcar_i2c_prepare_msg { s with msgsLeft := s.msgsLeft - 1 }
  | m :: rest =>
      rcar_i2c_prepare_msg
        { s with msg := m, pending := rest, msgsLeft := s.msgsLeft - 1 }

/-- Byte-wise transmit step of `rcar_i2c_irq_send` after the DMA attempt
declined: push the next byte, or — when the buffer is drained — program
the stop phase (last message) or advance to the next message; always clear
the handled interrupt bits last. -/
def rcar_i2c_send_body (s1 : DriverState) (pre : List Action) (irqs : ℕ) :
    DriverState × List Action :=
  if s1.pos < s1.msg.len then
    ({ s1 with pos := s1.pos + 1 },
     pre ++ [Action.writeICRXTX (s1.msg.buf s1.pos), rcar_i2c_clear_irq irqs])
  else if s1.lastMsg then
    (s1, pre ++ [Action.writeICMCR RCAR_BUS_PHASE_STOP, rcar_i2c_clear_irq irqs])
  else
    ((rcar_i2c_next_msg s1).1, pre ++ (rcar_i2c_next_msg s1).2 ++ [rcar_i2c_clear_irq irqs])

/-- `rcar_i2c_irq_send`.  `mde`/`mat` are the `MDE`/`MAT` bits of the
masked status word.  The DMA attempt happens only at `pos = 1` (the first
byte is already in flight); on takeover the handler returns at once. -/
def rcar_i2c_irq_send (s : DriverState) (mde mat : Bool) (oc : DmaOutcome) :
    DriverState × List Action :=
  if !mde then (s, []) else
  if s.pos = 1 ∧ (rcar_i2c_dma s oc).1 = true then
    ((rcar_i2c_dma s oc).2.1, (rcar_i2c_dma s oc).2.2)
  else
    rcar_i2c_send_body (if s.pos = 1 then (rcar_i2c_dma s oc).2.1 else s)
      (if s.pos = 1 then (rcar_i2c_dma s oc).2.2 else [])
      (MDE + (if mat then MAT else 0))

/-- Phase-change part of the `rcar_i2c_irq_recv` tail: when the next byte
is the last one and the length is no longer provisional, program the stop
phase (last message) or a repeated start, recording `ID_REP_AFTER_RD`. -/
def rcar_i2c_recv_phase (s : DriverState) (recvLenInit : Bool) :
    DriverState × List Action :=
  if decide (s.pos + 1 = s.msg.len) && !recvLenInit then
    if s.lastMsg then (s, [Action.writeICMCR RCAR_BUS_PHASE_STOP])
    else ({ s with repAfterRd := true }, [Action.writeICMCR RCAR_BUS_PHASE_START])
  else (s, [])

/-- Message-advance part of the `rcar_i2c_irq_recv` tail. -/
def rcar_i2c_recv_advance (s1 : DriverState) : DriverState × List Action :=
  if decide (s1.pos = s1.msg.len) && !s1.lastMsg then rcar_i2c_next_msg s1
  else (s1, [])

/-- Tail of `rcar_i2c_irq_recv` after the byte handling: phase change,
message advance, and the final status clear. -/
def rcar_i2c_recv_finish (s : DriverState) (recvLenInit : Bool) (irqs : ℕ)
    (pre : List Action) : DriverState × List Action :=
  ((rcar_i2c_recv_advance (rcar_i2c_recv_phase s recvLenInit).1).1,
   pre ++ (rcar_i2c_recv_phase s recvLenInit).2 ++
     (rcar_i2c_recv_advance (rcar_i2c_recv_phase s recvLenInit).1).2 ++
     [rcar_i2c_clear_irq irqs])

/-- `msg->buf[priv->pos] = data` -/
def rcar_i2c_store_byte (s : DriverState) (data : ℕ) : DriverState :=
  { s with msg := { s.msg with
      buf := fun i => if i = s.pos then data else s.msg.buf i } }

/-- `msg->len += msg->buf[0]` (the length-prefix byte finalizes the
provisional message length). -/
def rcar_i2c_add_len (s : DriverState) : DriverState :=
  { s with msg := { s.msg with len := s.msg.len + s.msg.buf 0 } }

/-- `rcar_i2c_irq_recv`.  `mdr`/`mat` are the `MDR`/`MAT` bits of the
masked status word; `data` is the byte the data port delivers. -/
def rcar_i2c_irq_recv (s : DriverState) (mdr mat : Bool) (data : ℕ) (oc : DmaOutcome) :
    DriverState × List Action :=
  if !mdr then (s, []) else
  if mat then
    -- address phase finished, no data yet: try DMA (result ignored)
    rcar_i2c_recv_finish (rcar_i2c_dma s oc).2.1
      (decide (s.pos = 0) && s.msg.recvLen) (MDR + MAT) (rcar_i2c_dma s oc).2.2
  else if s.pos < s.msg.len then
    if decide (s.pos = 0) && s.msg.recvLen then
      if decide (data = 0) || decide (I2C_SMBUS_BLOCK_MAX < data) then
        ({ rcar_i2c_store_byte s data with done := true, eproto := true },
         [Action.readICRXTX])
      else if (rcar_i2c_dma (rcar_i2c_add_len (rcar_i2c_store_byte s data)) oc).1 then
        ((rcar_i2c_dma (rcar_i2c_add_len (rcar_i2c_store_byte s data)) oc).2.1,
         Action.readICRXTX ::
           (rcar_i2c_dma (rcar_i2c_add_len (rcar_i2c_store_byte s data)) oc).2.2)
      else
        rcar_i2c_recv_finish
          { (rcar_i2c_dma (rcar_i2c_add_len (rcar_i2c_store_byte s data)) oc).2.1 with
            pos := (rcar_i2c_dma (rcar_i2c_add_len (rcar_i2c_store_byte s data)) oc).2.1.pos
              + 1 }
          false MDR
          (Action.readICRXTX ::
            (rcar_i2c_dma (rcar_i2c_add_len (rcar_i2c_store_byte s data)) oc).2.2)
    else
      rcar_i2c_recv_finish
        { rcar_i2c_store_byte s data with pos := (rcar_i2c_store_byte s data).pos + 1 }
        (decide (s.pos = 0) && s.msg.recvLen) MDR [Action.readICRXTX]
  else
    rcar_i2c_recv_finish s (decide (s.pos = 0) && s.msg.recvLen) MDR []

/-- One hardware event fed to the shared handler, pre-prioritized the way
`rcar_i2c_irq` tests the status word: arbitration lost, NACK, stop, a
data-phase interrupt (with its `MDE`/`MDR`/`MAT` bits, the data byte, and
the DMA oracle), or the DMA completion callback. -/
inductive Event
  | mal
  | nackEv
  | stopEv
  | dataEv (mde mdr mat : Bool) (data : ℕ) (oc : DmaOutcome)
  | dmaDoneEv

/-- The `out:` label of `rcar_i2c_irq`: when the handler finishes with
`ID_DONE` set it writes `ICMIER = 0` then `ICMSR = 0` and, in non-atomic
mode, wakes the waiting thread. -/
def rcar_out_block (r : DriverState × List Action) : DriverState × List Action :=
  if r.1.done then
    (r.1, r.2 ++ [Action.writeICMIER 0, Action.writeICMSR 0] ++
          (if r.1.notAtomic then [Action.wake] else []))
  else r

/-- One step of the transfer state machine: `rcar_i2c_irq` for the master
events, `rcar_i2c_dma_callback` for the DMA completion.  The guards encode
the hardware contract described above. -/
def rcar_i2c_step (s : DriverState) (e : Event) : DriverState × List Action :=
  if s.done then (s, []) else
  match e with
  | .dmaDoneEv => rcar_i2c_dma_callback s
  | .mal => rcar_out_block ({ s with done := true, arblost := true }, [])
  | .nackEv =>
      rcar_out_block ({ s with nack := true },
        if s.notAtomic then [Action.writeICMIER RCAR_IRQ_STOP] else [])
  | .stopEv => rcar_out_block ({ s with msgsLeft := s.msgsLeft - 1, done := true }, [])
  | .dataEv mde mdr mat data oc =>
      rcar_out_block
        (if s.dmaSg.isSome then (s, [])
         else if mat && decide (s.pos ≠ 0) then (s, [])
         else if s.msg.read then rcar_i2c_irq_recv s mdr mat data oc
         else rcar_i2c_irq_send s mde mat oc)

def rcar_i2c_run (s : DriverState) (es : List Event) : DriverState :=
  es.foldl (fun s e => (rcar_i2c_step s e).1) s

/-- Reachability under the event alphabet of the state machine. -/
def Reachable (s0 s : DriverState) : Prop := ∃ es : List Event, rcar_i2c_run s0 es = s

/-- Context state before a transfer starts: persistent configuration plus
whatever transient flags the previous transfer left behind (here only
`ID_REP_AFTER_RD` matters, the first `rcar_i2c_prepare_msg` clears the
rest).  `rcar_i2c_master_xfer` on Gen3+ resets the controller, which
clears `ID_P_NO_RXDMA`. -/
def rcar_i2c_base (t : RcarType) (notAtomic txOk rxOk noRxdma repAfter : Bool)
    (m0 : Msg) : DriverState :=
  { lastMsg := false, repAfterRd := repAfter, done := false, arblost := false,
    nack := false, eproto := false, notAtomic := notAtomic,
    noRxdma := if 2 ≤ t.code then false else noRxdma,
    pos := 0, msg := m0, pending := [], msgsLeft := 0, dmaSg := none,
    devtype := t, txChanOk := txOk, rxChanOk := rxOk }

/-- The transfer entry points arm the first message of the batch
(`rcar_i2c_first_msg`); the batch is the nonempty list `m :: rest`. -/
def rcar_i2c_start (t : RcarType) (notAtomic txOk rxOk noRxdma repAfter : Bool)
    (m : Msg) (rest : List Msg) : DriverState × List Action :=
  rcar_i2c_first_msg (rcar_i2c_base t notAtomic txOk rxOk noRxdma repAfter m) m rest

/-- Result mapping at the end of `rcar_i2c_master_xfer` /
`rcar_i2c_master_xfer_atomic`: `-ETIMEDOUT`, `-ENXIO` on NACK, `-EAGAIN`
on arbitration loss, `-EPROTO`, else `num - priv->msgs_left`. -/
def rcar_i2c_xfer_result (num : ℤ) (s : DriverState) (timedOut : Bool) : ℤ :=
  if timedOut then -110
  else if s.nack then -6
  else if s.arblost then -11
  else if s.eproto then -71
  else num - s.msgsLeft

/-- The final diagnostic in both entry points:
`if (ret < 0 && ret != -ENXIO) dev_err(...)`. -/
def rcar_i2c_logs_error (ret : ℤ) : Bool := decide (ret < 0) && decide (ret ≠ -6)

/-- Entry portion of `rcar_i2c_gen2_irq` up to computing the masked status:
clear START/STOP by writing the data phase — except during a repeated
start after read — then read ICMSR (and mask with ICMIER in non-atomic
mode). -/
def rcar_i2c_gen2_entry (repAfterRd notAtomic : Bool) : List Action :=
  (if !repAfterRd then [Action.writeICMCR RCAR_BUS_PHASE_DATA] else []) ++
  [Action.readICMSR] ++ (if notAtomic then [Action.readICMIER] else [])

/-- Entry portion of `rcar_i2c_gen3_irq`: read (and mask) the status
first, then write the data phase only if no repeated start after read is
in progress and the masked status is nonzero. -/
def rcar_i2c_gen3_entry (repAfterRd notAtomic : Bool) (maskedMsr : ℕ) : List Action :=
  [Action.readICMSR] ++ (if notAtomic then [Action.readICMIER] else []) ++
  (if !repAfterRd && decide (maskedMsr ≠ 0) then [Action.writeICMCR RCAR_BUS_PHASE_DATA]
   else [])

/-! ### The state-machine invariant -/

/-- Inductive invariant of the transfer state machine: the byte position
stays within the current message; an engaged DMA transfer still fits the
message; while not done the message counter equals one plus the number of
pending messages and `ID_LAST_MSG` tracks emptiness of the pending list;
when done, the counter is one plus the pending count (arbitration loss or
protocol error — no stop decrement) or exactly the pending count (stop
observed). -/
def Inv (s : DriverState) : Prop :=
  s.pos ≤ s.msg.len ∧
  (∀ g : DmaSg, s.dmaSg = some g → s.pos + g.len ≤ s.msg.len) ∧
  (s.done = false →
    s.arblost = false ∧ s.eproto = false ∧
    s.msgsLeft = 1 + (s.pending.length : ℤ) ∧ s.lastMsg = s.pending.isEmpty) ∧
  (s.done = true →
    (s.arblost = true ∨ s.eproto = true → s.msgsLeft = 1 + (s.pending.length : ℤ)) ∧
    (s.arblost = false ∧ s.eproto = false → s.msgsLeft = (s.pending.length : ℤ)))

lemma prepare_msg_state (s : DriverState) :
    (rcar_i2c_prepare_msg s).1 =
      { s with pos := 0, lastMsg := decide (s.msgsLeft = 1), repAfterRd := false,
               done := false, arblost := false, nack := false, eproto := false } := rfl

lemma feasible_len {s : DriverState} (h : rcar_i2c_dma_feasible s = true) :
    RCAR_MIN_DMA_LEN ≤ s.msg.len := by
  unfold rcar_i2c_dma_feasible at h
  simp only [Bool.and_eq_true, decide_eq_true_eq] at h
  exact h.1.1.2

lemma dma_spec (s : DriverState) (oc : DmaOutcome) :
    ((rcar_i2c_dma s oc).2.1.pos = s.pos) ∧
    ((rcar_i2c_dma s oc).2.1.msg = s.msg) ∧
    ((rcar_i2c_dma s oc).2.1.pending = s.pending) ∧
    ((rcar_i2c_dma s oc).2.1.msgsLeft = s.msgsLeft) ∧
    ((rcar_i2c_dma s oc).2.1.done = s.done) ∧
    ((rcar_i2c_dma s oc).2.1.arblost = s.arblost) ∧
    ((rcar_i2c_dma s oc).2.1.nack = s.nack) ∧
    ((rcar_i2c_dma s oc).2.1.eproto = s.eproto) ∧
    ((rcar_i2c_dma s oc).2.1.lastMsg = s.lastMsg) ∧
    ((rcar_i2c_dma s oc).2.1.repAfterRd = s.repAfterRd) ∧
    ((rcar_i2c_dma s oc).2.1.notAtomic = s.notAtomic) ∧
    ((rcar_i2c_dma s oc).1 = true →
      RCAR_MIN_DMA_LEN ≤ s.msg.len ∧
      (rcar_i2c_dma s oc).2.1.dmaSg =
        some { fromDev := s.msg.read, off := if s.msg.read then 0 else 1,
               len := if s.msg.read then s.msg.len - 2 else s.msg.len - 1 }) ∧
    ((rcar_i2c_dma s oc).1 = false →
      (rcar_i2c_dma s oc).2.1.dmaSg = s.dmaSg ∨ (rcar_i2c_dma s oc).2.1.dmaSg = none) := by
  unfold rcar_i2c_dma rcar_i2c_cleanup_dma
  split
  · rename_i hfeas
    have hlen := feasible_len hfeas
    cases oc <;> simp_all
  · simp

lemma inv_of_active {s : DriverState} (hpos : s.pos ≤ s.msg.len)
    (hdma : ∀ g : DmaSg, s.dmaSg = some g → s.pos + g.len ≤ s.msg.len)
    (hdone : s.done = false) (hab : s.arblost = false) (hep : s.eproto = false)
    (hml : s.msgsLeft = 1 + (s.pending.length : ℤ))
    (hlm : s.lastMsg = s.pending.isEmpty) : Inv s := by
  refine ⟨hpos, hdma, fun _ => ⟨hab, hep, hml, hlm⟩, fun hd => ?_⟩
  rw [hdone] at hd
  exact Bool.noConfusion hd

lemma next_msg_inv {s : DriverState} (h1 : s.msgsLeft = 1 + (s.pending.length : ℤ))
    (h2 : s.pending ≠ []) (h3 : s.dmaSg = none) :
    Inv (rcar_i2c_next_msg s).1 ∧ (rcar_i2c_next_msg s).1.done = false := by
  unfold rcar_i2c_next_msg
  cases hp : s.pending with
  | nil => exact absurd hp h2
  | cons m rest =>
    rw [hp] at h1
    simp only [List.length_cons] at h1
    rw [prepare_msg_state]
    refine ⟨?_, rfl⟩
    refine inv_of_active (Nat.zero_le _) ?_ rfl rfl rfl ?_ ?_
    · intro g hg
      simp only [] at hg
      rw [h3] at hg
      exact Option.noConfusion hg
    · show s.msgsLeft - 1 = 1 + (rest.length : ℤ)
      push_cast at h1
      omega
    · show decide (s.msgsLeft - 1 = 1) = rest.isEmpty
      cases rest with
      | nil =>
        have hv : s.msgsLeft - 1 = 1 := by
          simp only [List.length_nil] at h1; push_cast at h1; omega
        simp [hv]
      | cons m2 rest2 =>
        have hv : ¬ s.msgsLeft - 1 = 1 := by
          simp only [List.length_cons] at h1; push_cast at h1; omega
        simp [hv]

lemma recv_phase_spec (s : DriverState) (b : Bool) :
    ((rcar_i2c_recv_phase s b).1.pos = s.pos) ∧
    ((rcar_i2c_recv_phase s b).1.msg = s.msg) ∧
    ((rcar_i2c_recv_phase s b).1.pending = s.pending) ∧
    ((rcar_i2c_recv_phase s b).1.msgsLeft = s.msgsLeft) ∧
    ((rcar_i2c_recv_phase s b).1.done = s.done) ∧
    ((rcar_i2c_recv_phase s b).1.arblost = s.arblost) ∧
    ((rcar_i2c_recv_phase s b).1.nack = s.nack) ∧
    ((rcar_i2c_recv_phase s b).1.eproto = s.eproto) ∧
    ((rcar_i2c_recv_phase s b).1.lastMsg = s.lastMsg) ∧
    ((rcar_i2c_recv_phase s b).1.dmaSg = s.dmaSg) ∧
    ((rcar_i2c_recv_phase s b).1.notAtomic = s.notAtomic) := by
  unfold rcar_i2c_recv_phase
  split
  · split <;> simp
  · simp

lemma recv_advance_inv {s1 : DriverState} (hpos : s1.pos ≤ s1.msg.len)
    (hdma : ∀ g : DmaSg, s1.dmaSg = some g → s1.pos + g.len ≤ s1.msg.len)
    (hdis : s1.dmaSg = none ∨ s1.pos ≠ s1.msg.len)
    (hdone : s1.done = false) (hab : s1.arblost = false) (hep : s1.eproto = false)
    (hml : s1.msgsLeft = 1 + (s1.pending.length : ℤ))
    (hlm : s1.lastMsg = s1.pending.isEmpty) :
    Inv (rcar_i2c_recv_advance s1).1 ∧ (rcar_i2c_recv_advance s1).1.done = false := by
  unfold rcar_i2c_recv_advance
  split
  · rename_i hcond
    simp only [Bool.and_eq_true, decide_eq_true_eq, Bool.not_eq_true'] at hcond
    have hnone : s1.dmaSg = none := by
      rcases hdis with h | h
      · exact h
      · exact absurd hcond.1 h
    refine next_msg_inv hml (fun hnil => ?_) hnone
    rw [hnil] at hlm
    simp only [List.isEmpty_nil] at hlm
    rw [hcond.2] at hlm
    exact Bool.noConfusion hlm
  · exact ⟨inv_of_active hpos hdma hdone hab hep hml hlm, hdone⟩

lemma recv_finish_inv {s : DriverState} (hpos : s.pos ≤ s.msg.len)
    (hdma : ∀ g : DmaSg, s.dmaSg = some g → s.pos + g.len ≤ s.msg.len)
    (hdis : s.dmaSg = none ∨ s.pos ≠ s.msg.len)
    (hdone : s.done = false) (hab : s.arblost = false) (hep : s.eproto = false)
    (hml : s.msgsLeft = 1 + (s.pending.length : ℤ))
    (hlm : s.lastMsg = s.pending.isEmpty) (b : Bool) (irqs : ℕ) (pre : List Action) :
    Inv (rcar_i2c_recv_finish s b irqs pre).1 ∧
      (rcar_i2c_recv_finish s b irqs pre).1.done = false := by
  unfold rcar_i2c_recv_finish
  obtain ⟨e1, e2, e3, e4, e5, e6, e7, e8, e9, e10, e11⟩ := recv_phase_spec s b
  exact recv_advance_inv (by rw [e1, e2]; exact hpos)
    (by rw [e1, e2, e10]; exact hdma)
    (by rw [e1, e2, e10]; exact hdis)
    (by rw [e5]; exact hdone) (by rw [e6]; exact hab) (by rw [e8]; exact hep)
    (by rw [e4, e3]; exact hml) (by rw [e9, e3]; exact hlm)

lemma send_body_inv {s1 : DriverState} (hpos : s1.pos ≤ s1.msg.len)
    (hdma : s1.dmaSg = none) (hdone : s1.done = false) (hab : s1.arblost = false)
    (hep : s1.eproto = false) (hml : s1.msgsLeft = 1 + (s1.pending.length : ℤ))
    (hlm : s1.lastMsg = s1.pending.isEmpty) (pre : List Action) (irqs : ℕ) :
    Inv (rcar_i2c_send_body s1 pre irqs).1 ∧
      (rcar_i2c_send_body s1 pre irqs).1.done = false := by
  have hdmacl : ∀ g : DmaSg, s1.dmaSg = some g → s1.pos + g.len ≤ s1.msg.len := by
    intro g hg; rw [hdma] at hg; exact Option.noConfusion hg
  unfold rcar_i2c_send_body
  split
  · rename_i hlt
    refine ⟨inv_of_active (by simp; omega) ?_ hdone hab hep hml hlm, hdone⟩
    intro g hg
    simp only [] at hg
    rw [hdma] at hg
    exact Option.noConfusion hg
  · split
    · exact ⟨inv_of_active hpos hdmacl hdone hab hep hml hlm, hdone⟩
    · rename_i hnl
      refine next_msg_inv hml (fun hnil => ?_) hdma
      rw [hnil] at hlm
      simp only [List.isEmpty_nil] at hlm
      exact hnl hlm

lemma dma_engaged_inv {s : DriverState} {oc : DmaOutcome}
    (heng : (rcar_i2c_dma s oc).1 = true) (hp : s.pos ≤ 1) :
    ∀ g : DmaSg, (rcar_i2c_dma s oc).2.1.dmaSg = some g →
      (rcar_i2c_dma s oc).2.1.pos + g.len ≤ (rcar_i2c_dma s oc).2.1.msg.len := by
  obtain ⟨e1, e2, -, -, -, -, -, -, -, -, -, hspec, -⟩ := dma_spec s oc
  obtain ⟨hlen8, hsg⟩ := hspec heng
  intro g hg
  rw [hsg] at hg
  obtain rfl := Option.some.inj hg
  rw [e1, e2]
  unfold RCAR_MIN_DMA_LEN at hlen8
  dsimp only
  split <;> omega

lemma dma_inv {s : DriverState} (oc : DmaOutcome) (hpos : s.pos ≤ s.msg.len)
    (hdma : s.dmaSg = none) (hdone : s.done = false) (hab : s.arblost = false)
    (hep : s.eproto = false) (hml : s.msgsLeft = 1 + (s.pending.length : ℤ))
    (hlm : s.lastMsg = s.pending.isEmpty) (hp : s.pos ≤ 1) :
    Inv (rcar_i2c_dma s oc).2.1 ∧ (rcar_i2c_dma s oc).2.1.done = false := by
  obtain ⟨e1, e2, e3, e4, e5, e6, e7, e8, e9, e10, e11, hspec, hne⟩ := dma_spec s oc
  cases heng : (rcar_i2c_dma s oc).1
  · have hnone : (rcar_i2c_dma s oc).2.1.dmaSg = none := by
      rcases hne heng with h | h
      · rw [h, hdma]
      · exact h
    refine ⟨inv_of_active (by rw [e1, e2]; exact hpos) ?_ (by rw [e5]; exact hdone)
      (by rw [e6]; exact hab) (by rw [e8]; exact hep) (by rw [e4, e3]; exact hml)
      (by rw [e9, e3]; exact hlm), by rw [e5]; exact hdone⟩
    intro g hg
    rw [hnone] at hg
    exact Option.noConfusion hg
  · refine ⟨⟨by rw [e1, e2]; exact hpos, dma_engaged_inv heng hp, ?_, ?_⟩,
      by rw [e5]; exact hdone⟩
    · intro _
      exact ⟨by rw [e6]; exact hab, by rw [e8]; exact hep, by rw [e4, e3]; exact hml,
             by rw [e9, e3]; exact hlm⟩
    · intro hd
      rw [e5, hdone] at hd
      exact Bool.noConfusion hd

lemma irq_send_inv {s : DriverState} (hInv : Inv s) (hdone : s.done = false)
    (hdma : s.dmaSg = none) (mde mat : Bool) (oc : DmaOutcome) :
    Inv (rcar_i2c_irq_send s mde mat oc).1 ∧
      (rcar_i2c_irq_send s mde mat oc).1.done = false := by
  obtain ⟨hpos, hdmacl, hnd, -⟩ := hInv
  obtain ⟨hab, hep, hml, hlm⟩ := hnd hdone
  unfold rcar_i2c_irq_send
  split
  · exact ⟨inv_of_active hpos hdmacl hdone hab hep hml hlm, hdone⟩
  split
  · rename_i hcase
    exact dma_inv oc hpos hdma hdone hab hep hml hlm (le_of_eq hcase.1)
  · rename_i hcase
    by_cases hp1 : s.pos = 1
    · simp only [if_pos hp1]
      have heng : (rcar_i2c_dma s oc).1 = false := by
        cases hv : (rcar_i2c_dma s oc).1
        · rfl
        · exact absurd ⟨hp1, hv⟩ hcase
      obtain ⟨e1, e2, e3, e4, e5, e6, e7, e8, e9, e10, e11, -, hne⟩ := dma_spec s oc
      have hnone : (rcar_i2c_dma s oc).2.1.dmaSg = none := by
        rcases hne heng with h | h
        · rw [h, hdma]
        · exact h
      exact send_body_inv (by rw [e1, e2]; exact hpos) hnone (by rw [e5]; exact hdone)
        (by rw [e6]; exact hab) (by rw [e8]; exact hep) (by rw [e4, e3]; exact hml)
        (by rw [e9, e3]; exact hlm) _ _
    · simp only [if_neg hp1]
      exact send_body_inv hpos hdma hdone hab hep hml hlm _ _

lemma inv_of_eproto {s : DriverState} (hpos : s.pos ≤ s.msg.len)
    (hdma : s.dmaSg = none) (hab : s.arblost = false)
    (hml : s.msgsLeft = 1 + (s.pending.length : ℤ)) :
    Inv { s with done := true, eproto := true } := by
  refine ⟨hpos, ?_, ?_, ?_⟩
  · intro g hg
    simp only [] at hg
    rw [hdma] at hg
    exact Option.noConfusion hg
  · intro hd
    exact Bool.noConfusion hd
  · intro _
    constructor
    · intro _
      exact hml
    · intro hcon
      exact Bool.noConfusion hcon.2

lemma store_add_fields (s : DriverState) (d : ℕ) :
    (rcar_i2c_add_len (rcar_i2c_store_byte s d)).pos = s.pos ∧
    (rcar_i2c_add_len (rcar_i2c_store_byte s d)).msg.len =
      s.msg.len + (if 0 = s.pos then d else s.msg.buf 0) ∧
    (rcar_i2c_add_len (rcar_i2c_store_byte s d)).dmaSg = s.dmaSg ∧
    (rcar_i2c_add_len (rcar_i2c_store_byte s d)).done = s.done ∧
    (rcar_i2c_add_len (rcar_i2c_store_byte s d)).arblost = s.arblost ∧
    (rcar_i2c_add_len (rcar_i2c_store_byte s d)).eproto = s.eproto ∧
    (rcar_i2c_add_len (rcar_i2c_store_byte s d)).msgsLeft = s.msgsLeft ∧
    (rcar_i2c_add_len (rcar_i2c_store_byte s d)).pending = s.pending ∧
    (rcar_i2c_add_len (rcar_i2c_store_byte s d)).lastMsg = s.lastMsg :=
  ⟨rfl, rfl, rfl, rfl, rfl, rfl, rfl, rfl, rfl⟩

lemma irq_recv_inv {s : DriverState} (hInv : Inv s) (hdone : s.done = false)
    (hdma : s.dmaSg = none) (mdr mat : Bool) (data : ℕ) (oc : DmaOutcome)
    (hmat : mat = true → s.pos = 0) :
    Inv (rcar_i2c_irq_recv s mdr mat data oc).1 := by
  obtain ⟨hpos, hdmacl, hnd, -⟩ := hInv
  obtain ⟨hab, hep, hml, hlm⟩ := hnd hdone
  unfold rcar_i2c_irq_recv
  split
  · exact inv_of_active hpos hdmacl hdone hab hep hml hlm
  split
  · -- MAT: address phase done, DMA attempt with result ignored
    rename_i hmat'
    have hp0 := hmat hmat'
    obtain ⟨e1, e2, e3, e4, e5, e6, e7, e8, e9, e10, e11, hspec, hne⟩ := dma_spec s oc
    cases heng : (rcar_i2c_dma s oc).1
    · have hnone : (rcar_i2c_dma s oc).2.1.dmaSg = none := by
        rcases hne heng with h | h
        · rw [h, hdma]
        · exact h
      exact (recv_finish_inv (by rw [e1, e2]; exact hpos)
        (fun g hg => absurd (hnone ▸ hg) (by simp)) (Or.inl hnone)
        (by rw [e5]; exact hdone) (by rw [e6]; exact hab) (by rw [e8]; exact hep)
        (by rw [e4, e3]; exact hml) (by rw [e9, e3]; exact hlm) _ _ _).1
    · obtain ⟨hlen8, -⟩ := hspec heng
      refine (recv_finish_inv (by rw [e1, e2]; exact hpos)
        (dma_engaged_inv heng (by omega)) (Or.inr ?_)
        (by rw [e5]; exact hdone) (by rw [e6]; exact hab) (by rw [e8]; exact hep)
        (by rw [e4, e3]; exact hml) (by rw [e9, e3]; exact hlm) _ _ _).1
      rw [e1, e2, hp0]
      unfold RCAR_MIN_DMA_LEN at hlen8
      omega
  split
  · -- pos < msg.len: store the byte
    rename_i hlt
    split
    · -- first byte of a RECV_LEN message
      rename_i hrli
      simp only [Bool.and_eq_true, decide_eq_true_eq] at hrli
      split
      · -- invalid length byte: protocol error
        exact inv_of_eproto hpos hdma hab hml
      split
      · -- valid length byte, DMA takes over with the final length
        refine (dma_inv (s := rcar_i2c_add_len (rcar_i2c_store_byte s data)) oc ?_
          hdma hdone hab hep hml hlm ?_).1
        · show s.pos ≤ s.msg.len + (if 0 = s.pos then data else s.msg.buf 0)
          exact le_trans hpos (Nat.le_add_right _ _)
        · show s.pos ≤ 1
          omega
      · -- valid length byte, DMA declined: byte-wise, position advances
        rename_i heng
        obtain ⟨f1, f2, f3, f4, f5, f6, f7, f8, f9⟩ := store_add_fields s data
        obtain ⟨e1, e2, e3, e4, e5, e6, e7, e8, e9, e10, e11, -, hne⟩ :=
          dma_spec (rcar_i2c_add_len (rcar_i2c_store_byte s data)) oc
        have hengf :
            (rcar_i2c_dma (rcar_i2c_add_len (rcar_i2c_store_byte s data)) oc).1 = false := by
          cases hv : (rcar_i2c_dma (rcar_i2c_add_len (rcar_i2c_store_byte s data)) oc).1
          · rfl
          · exact absurd hv heng
        have hnone :
            (rcar_i2c_dma (rcar_i2c_add_len
              (rcar_i2c_store_byte s data)) oc).2.1.dmaSg = none := by
          rcases hne hengf with h | h
          · rw [h, f3, hdma]
          · exact h
        refine (recv_finish_inv ?_ (fun g hg => ?_) ?_ ?_ ?_ ?_ ?_ ?_ _ _ _).1
        · show (rcar_i2c_dma (rcar_i2c_add_len (rcar_i2c_store_byte s data)) oc).2.1.pos
              + 1 ≤
            (rcar_i2c_dma (rcar_i2c_add_len (rcar_i2c_store_byte s data)) oc).2.1.msg.len
          rw [e1, e2, f1, f2]
          exact le_trans (by omega) (Nat.le_add_right _ _)
        · have hg2 : (rcar_i2c_dma (rcar_i2c_add_len
              (rcar_i2c_store_byte s data)) oc).2.1.dmaSg = some g := hg
          rw [hnone] at hg2
          exact Option.noConfusion hg2
        · exact Or.inl hnone
        · show (rcar_i2c_dma (rcar_i2c_add_len
              (rcar_i2c_store_byte s data)) oc).2.1.done = false
          rw [e5, f4]; exact hdone
        · show (rcar_i2c_dma (rcar_i2c_add_len
              (rcar_i2c_store_byte s data)) oc).2.1.arblost = false
          rw [e6, f5]; exact hab
        · show (rcar_i2c_dma (rcar_i2c_add_len
              (rcar_i2c_store_byte s data)) oc).2.1.eproto = false
          rw [e8, f6]; exact hep
        · show (rcar_i2c_dma (rcar_i2c_add_len
              (rcar_i2c_store_byte s data)) oc).2.1.msgsLeft =
            1 + ((rcar_i2c_dma (rcar_i2c_add_len
              (rcar_i2c_store_byte s data)) oc).2.1.pending.length : ℤ)
          rw [e4, e3, f7, f8]; exact hml
        · show (rcar_i2c_dma (rcar_i2c_add_len
              (rcar_i2c_store_byte s data)) oc).2.1.lastMsg =
            (rcar_i2c_dma (rcar_i2c_add_len
              (rcar_i2c_store_byte s data)) oc).2.1.pending.isEmpty
          rw [e9, e3, f9, f8]; exact hlm
    · -- plain byte-wise receive: position advances
      refine (recv_finish_inv ?_ (fun g hg => ?_) ?_ ?_ ?_ ?_ ?_ ?_ _ _ _).1
      · show s.pos + 1 ≤ s.msg.len
        omega
      · have hg2 : s.dmaSg = some g := hg
        rw [hdma] at hg2
        exact Option.noConfusion hg2
      · exact Or.inl hdma
      · exact hdone
      · exact hab
      · exact hep
      · exact hml
      · exact hlm
  · -- pos at or past msg.len: no byte handling
    exact (recv_finish_inv hpos hdmacl (Or.inl hdma)
      hdone hab hep hml hlm _ _ _).1

lemma dma_callback_inv {s : DriverState} (hInv : Inv s) :
    Inv (rcar_i2c_dma_callback s).1 ∧ (rcar_i2c_dma_callback s).1.done = s.done := by
  obtain ⟨hpos, hdmacl, hnd, hd⟩ := hInv
  unfold rcar_i2c_dma_callback rcar_i2c_cleanup_dma
  cases hsg : s.dmaSg with
  | none => exact ⟨⟨hpos, hdmacl, hnd, hd⟩, rfl⟩
  | some g =>
    have hb := hdmacl g hsg
    refine ⟨⟨hb, ?_, ?_, ?_⟩, rfl⟩
    · intro g2 hg2
      have hg3 : (none : Option DmaSg) = some g2 := hg2
      exact Option.noConfusion hg3
    · intro hdf
      exact hnd hdf
    · intro hdt
      exact hd hdt

lemma out_block_fst (r : DriverState × List Action) : (rcar_out_block r).1 = r.1 := by
  unfold rcar_out_block
  split <;> rfl

lemma inv_step {s : DriverState} (hInv : Inv s) (e : Event) :
    Inv (rcar_i2c_step s e).1 := by
  unfold rcar_i2c_step
  split
  · exact hInv
  rename_i hdone0
  have hdone : s.done = false := by
    cases hv : s.done
    · rfl
    · exact absurd hv hdone0
  obtain ⟨hpos, hdmacl, hnd, -⟩ := hInv
  obtain ⟨hab, hep, hml, hlm⟩ := hnd hdone
  cases e with
  | dmaDoneEv => exact (dma_callback_inv ⟨hpos, hdmacl, hnd, fun hdt =>
      Bool.noConfusion (hdone ▸ hdt)⟩).1
  | mal =>
      rw [out_block_fst]
      exact ⟨hpos, hdmacl, fun hdf => Bool.noConfusion hdf,
        fun _ => ⟨fun _ => hml, fun hcon => Bool.noConfusion hcon.1⟩⟩
  | nackEv =>
      rw [out_block_fst]
      exact ⟨hpos, hdmacl, fun _ => ⟨hab, hep, hml, hlm⟩,
        fun hdt => Bool.noConfusion (hdone ▸ hdt)⟩
  | stopEv =>
      rw [out_block_fst]
      refine ⟨hpos, hdmacl, fun hdf => Bool.noConfusion hdf, fun _ => ⟨?_, ?_⟩⟩
      · intro hor
        rcases hor with h | h
        · exact Bool.noConfusion (hab ▸ h)
        · exact Bool.noConfusion (hep ▸ h)
      · intro _
        show s.msgsLeft - 1 = (s.pending.length : ℤ)
        omega
  | dataEv mde mdr mat data oc =>
      rw [out_block_fst]
      split
      · exact inv_of_active hpos hdmacl hdone hab hep hml hlm
      rename_i hsome
      have hdma : s.dmaSg = none := by
        cases hv : s.dmaSg with
        | none => rfl
        | some g => rw [hv] at hsome; exact absurd rfl hsome
      split
      · exact inv_of_active hpos hdmacl hdone hab hep hml hlm
      rename_i hmat0
      have hmat : mat = true → s.pos = 0 := by
        intro hm
        by_contra hnp
        exact hmat0 (by simp [hm, hnp])
      split
      · exact irq_recv_inv ⟨hpos, hdmacl, hnd, fun hdt =>
          Bool.noConfusion (hdone ▸ hdt)⟩ hdone hdma mdr mat data oc hmat
      · exact (irq_send_inv ⟨hpos, hdmacl, hnd, fun hdt =>
          Bool.noConfusion (hdone ▸ hdt)⟩ hdone hdma mde mat oc).1

lemma inv_run {s : DriverState} (hInv : Inv s) (es : List Event) :
    Inv (rcar_i2c_run s es) := by
  induction es generalizing s with
  | nil => exact hInv
  | cons e rest ih =>
      show Inv (rcar_i2c_run (rcar_i2c_step s e).1 rest)
      exact ih (inv_step hInv e)

lemma inv_start (t : RcarType) (na txOk rxOk nrx rep : Bool) (m : Msg)
    (rest : List Msg) : Inv (rcar_i2c_start t na txOk rxOk nrx rep m rest).1 := by
  show Inv (rcar_i2c_prepare_msg
    { rcar_i2c_base t na txOk rxOk nrx rep m with
      msg := m, pending := rest, msgsLeft := 1 + (rest.length : ℤ) }).1
  rw [prepare_msg_state]
  refine inv_of_active (Nat.zero_le _) ?_ rfl rfl rfl rfl ?_
  · intro g hg
    have hg2 : (none : Option DmaSg) = some g := hg
    exact Option.noConfusion hg2
  · show decide (1 + (rest.length : ℤ) = 1) = rest.isEmpty
    cases rest with
    | nil => simp
    | cons m2 rest2 =>
      have hv : ¬ (1 + ((rest2.length + 1 : ℕ) : ℤ) = 1) := by push_cast; omega
      simp only [List.length_cons, List.isEmpty_cons, decide_eq_false hv]

lemma inv_reachable {s0 s : DriverState} (h0 : Inv s0) (h : Reachable s0 s) : Inv s := by
  obtain ⟨es, hes⟩ := h
  rw [← hes]
  exact inv_run h0 es

lemma dma_engaged_iff (s : DriverState) (oc : DmaOutcome) :
    (rcar_i2c_dma s oc).1 = true ↔
      (rcar_i2c_dma_feasible s = true ∧ oc = DmaOutcome.ok) := by
  unfold rcar_i2c_dma
  split
  · rename_i hfeas
    cases oc <;> simp_all
  · rename_i hfeas
    simp only [Bool.false_eq_true, false_iff, not_and]
    intro hf
    exact absurd hf hfeas

/-! ### State machine theorems -/

/-- C2.  For every state reachable from the start of a transfer batch —
after any sequence of data-phase events, message transitions, DMA
completion callbacks, and terminal events permitted by the hardware
contract — the byte position satisfies `0 ≤ pos ≤ current message length`
(the lower bound holds by the ℕ type of `pos`, matching the always
nonnegative C counter) and `msgs_left ≥ 0` (stated over ℤ, the type of
the C `int`). -/
theorem rcar_state_invariant (t : RcarType) (na txOk rxOk nrx rep : Bool) (m : Msg)
    (rest : List Msg) (s : DriverState)
    (h : Reachable (rcar_i2c_start t na txOk rxOk nrx rep m rest).1 s) :
    0 ≤ s.msgsLeft ∧ s.pos ≤ s.msg.len := by
  have hInv := inv_reachable (inv_start t na txOk rxOk nrx rep m rest) h
  obtain ⟨hpos, -, hnd, hd⟩ := hInv
  refine ⟨?_, hpos⟩
  have hn : (0:ℤ) ≤ (s.pending.length : ℤ) := Int.natCast_nonneg _
  cases hv : s.done
  · have hml := (hnd hv).2.2.1
    omega
  · by_cases hae : s.arblost = true ∨ s.eproto = true
    · have h1 := (hd hv).1 hae
      omega
    · have ha : s.arblost = false := by
        cases hb : s.arblost
        · rfl
        · exact absurd (Or.inl hb) hae
      have he : s.eproto = false := by
        cases hb : s.eproto
        · rfl
        · exact absurd (Or.inr hb) hae
      have h2 := (hd hv).2 ⟨ha, he⟩
      omega

/-- Witness for C2 at the freshly armed state of a one-message batch. -/
theorem rcar_state_invariant_witness :
    0 ≤ (rcar_i2c_start .gen2 true false false false false
      { addr := 80, read := false, recvLen := false, dmaSafe := false, len := 4,
        buf := fun _ => 0 } []).1.msgsLeft ∧
    (rcar_i2c_start .gen2 true false false false false
      { addr := 80, read := false, recvLen := false, dmaSafe := false, len := 4,
        buf := fun _ => 0 } []).1.pos ≤
      (rcar_i2c_start .gen2 true false false false false
        { addr := 80, read := false, recvLen := false, dmaSafe := false, len := 4,
          buf := fun _ => 0 } []).1.msg.len :=
  rcar_state_invariant .gen2 true false false false false _ [] _ ⟨[], rfl⟩

/-- C3.  While the transfer is live, `msgs_left` equals one plus the
number of pending messages, so it has been decremented exactly once per
completed message (`rcar_i2c_next_msg`); the stop event decrements it one
final time while setting done.  Hence in any reachable done state without
NACK, arbitration-loss or protocol-error flags, `msgs_left` equals the
pending count, the entry point's result is computed as
`num - msgs_left`, and a fully completed batch (no pending messages)
returns exactly `n`. -/
theorem rcar_batch_count (t : RcarType) (na txOk rxOk nrx rep : Bool) (m : Msg)
    (rest : List Msg) (s : DriverState)
    (h : Reachable (rcar_i2c_start t na txOk rxOk nrx rep m rest).1 s)
    (hdone : s.done = true) (hn : s.nack = false) (ha : s.arblost = false)
    (he : s.eproto = false) :
    s.msgsLeft = (s.pending.length : ℤ) ∧
    rcar_i2c_xfer_result (1 + (rest.length : ℤ)) s false =
      (1 + (rest.length : ℤ)) - s.msgsLeft ∧
    (s.pending = [] →
      rcar_i2c_xfer_result (1 + (rest.length : ℤ)) s false = 1 + (rest.length : ℤ)) := by
  have hInv := inv_reachable (inv_start t na txOk rxOk nrx rep m rest) h
  have hml := (hInv.2.2.2 hdone).2 ⟨ha, he⟩
  have hres : rcar_i2c_xfer_result (1 + (rest.length : ℤ)) s false =
      (1 + (rest.length : ℤ)) - s.msgsLeft := by
    unfold rcar_i2c_xfer_result
    rw [if_neg (by simp), if_neg (by simp [hn]), if_neg (by simp [ha]),
      if_neg (by simp [he])]
  refine ⟨hml, hres, ?_⟩
  intro hp
  rw [hres, hml, hp]
  simp

/-- Witness for C3: a one-message write batch driven to successful
completion (two data-phase events and a stop) reports one completed
message. -/
theorem rcar_batch_count_witness :
    rcar_i2c_xfer_result 1
      (rcar_i2c_run (rcar_i2c_start .gen2 false false false false false
        { addr := 80, read := false, recvLen := false, dmaSafe := false, len := 1,
          buf := fun _ => 0 } []).1
        [Event.dataEv true false true 0 DmaOutcome.ok,
         Event.dataEv true false false 0 DmaOutcome.ok, Event.stopEv]) false = 1 := by
  have h := rcar_batch_count .gen2 false false false false false
    { addr := 80, read := false, recvLen := false, dmaSafe := false, len := 1,
      buf := fun _ => 0 } [] _
    ⟨[Event.dataEv true false true 0 DmaOutcome.ok,
      Event.dataEv true false false 0 DmaOutcome.ok, Event.stopEv], rfl⟩
    rfl rfl rfl rfl
  simpa using h.2.2 rfl

lemma recv_finish_no_advance {s1 : DriverState} (hne : s1.pos ≠ s1.msg.len)
    (b : Bool) (irqs : ℕ) (pre : List Action) :
    (rcar_i2c_recv_finish s1 b irqs pre).1.pos = s1.pos ∧
    (rcar_i2c_recv_finish s1 b irqs pre).1.msg = s1.msg ∧
    (rcar_i2c_recv_finish s1 b irqs pre).1.dmaSg = s1.dmaSg ∧
    (rcar_i2c_recv_finish s1 b irqs pre).1.done = s1.done ∧
    (rcar_i2c_recv_finish s1 b irqs pre).1.pending = s1.pending ∧
    (rcar_i2c_recv_finish s1 b irqs pre).1.msgsLeft = s1.msgsLeft ∧
    (rcar_i2c_recv_finish s1 b irqs pre).1.nack = s1.nack ∧
    (rcar_i2c_recv_finish s1 b irqs pre).1.arblost = s1.arblost ∧
    (rcar_i2c_recv_finish s1 b irqs pre).1.eproto = s1.eproto := by
  unfold rcar_i2c_recv_finish rcar_i2c_recv_advance
  obtain ⟨e1, e2, e3, e4, e5, e6, e7, e8, e9, e10, e11⟩ := recv_phase_spec s1 b
  have hc : (decide ((rcar_i2c_recv_phase s1 b).1.pos =
      (rcar_i2c_recv_phase s1 b).1.msg.len) && !(rcar_i2c_recv_phase s1 b).1.lastMsg)
      = false := by
    rw [e1, e2]
    simp [hne]
  rw [if_neg (by simp [hc])]
  exact ⟨e1, e2, e10, e5, e3, e4, e7, e6, e8⟩

/-- C4.  For a receive message flagged length-not-final (`I2C_M_RECV_LEN`),
at the first data byte: if the byte is `0` or exceeds the block-transfer
maximum, the handler sets the done and protocol-error flags and the
transfer result maps to `-EPROTO` (the position and length are left
alone); otherwise the byte is added to the declared message length and the
DMA handoff is attempted again with the now-final length — engaging over
the interior `len + data - 2` bytes exactly when the eligibility checks
pass and the submission succeeds, and otherwise continuing byte-wise with
the position advanced past the length byte. -/
theorem rcar_recv_len_protocol (s : DriverState) (num : ℤ) (data : ℕ) (mde : Bool)
    (oc : DmaOutcome) (hdone : s.done = false) (hdma : s.dmaSg = none)
    (hpos : s.pos = 0) (hread : s.msg.read = true) (hrl : s.msg.recvLen = true)
    (hlen : 0 < s.msg.len) (hn : s.nack = false) (ha : s.arblost = false) :
    ((data = 0 ∨ I2C_SMBUS_BLOCK_MAX < data) →
      (rcar_i2c_step s (Event.dataEv mde true false data oc)).1.done = true ∧
      (rcar_i2c_step s (Event.dataEv mde true false data oc)).1.eproto = true ∧
      rcar_i2c_xfer_result num
        (rcar_i2c_step s (Event.dataEv mde true false data oc)).1 false = -71) ∧
    (1 ≤ data → data ≤ I2C_SMBUS_BLOCK_MAX →
      (rcar_i2c_step s (Event.dataEv mde true false data oc)).1.msg.len =
        s.msg.len + data ∧
      (rcar_i2c_step s (Event.dataEv mde true false data oc)).1.done = false ∧
      ((rcar_i2c_dma_feasible (rcar_i2c_add_len (rcar_i2c_store_byte s data)) = true ∧
          oc = DmaOutcome.ok) →
        (rcar_i2c_step s (Event.dataEv mde true false data oc)).1.dmaSg =
          some { fromDev := true, off := 0, len := s.msg.len + data - 2 } ∧
        (rcar_i2c_step s (Event.dataEv mde true false data oc)).1.pos = 0) ∧
      (¬ (rcar_i2c_dma_feasible (rcar_i2c_add_len (rcar_i2c_store_byte s data)) = true ∧
          oc = DmaOutcome.ok) →
        (rcar_i2c_step s (Event.dataEv mde true false data oc)).1.pos = 1 ∧
        (rcar_i2c_step s (Event.dataEv mde true false data oc)).1.dmaSg = none)) := by
  have hstep : (rcar_i2c_step s (Event.dataEv mde true false data oc)).1 =
      (rcar_i2c_irq_recv s true false data oc).1 := by
    unfold rcar_i2c_step
    simp [hdone, hdma, hread, out_block_fst]
  have hlt0 : s.pos < s.msg.len := by omega
  have hrli : (decide (s.pos = 0) && s.msg.recvLen) = true := by simp [hpos, hrl]
  have hlen2 : (rcar_i2c_add_len (rcar_i2c_store_byte s data)).msg.len
      = s.msg.len + data := by
    rw [(store_add_fields s data).2.1, hpos]
    simp
  obtain ⟨g1, g2, g3, g4, g5, g6, g7, g8, g9, g10, g11, gspec, gne⟩ :=
    dma_spec (rcar_i2c_add_len (rcar_i2c_store_byte s data)) oc
  constructor
  · -- invalid length byte
    intro hd
    have hinv : (decide (data = 0) || decide (I2C_SMBUS_BLOCK_MAX < data)) = true := by
      rcases hd with h | h <;> simp [h]
    have hr : (rcar_i2c_irq_recv s true false data oc).1 =
        { rcar_i2c_store_byte s data with done := true, eproto := true } := by
      unfold rcar_i2c_irq_recv
      rw [if_neg (by simp), if_neg (by simp), if_pos hlt0, if_pos hrli, if_pos hinv]
    rw [hstep, hr]
    refine ⟨rfl, rfl, ?_⟩
    unfold rcar_i2c_xfer_result
    rw [if_neg (by simp), if_neg (by simp [rcar_i2c_store_byte, hn]),
      if_neg (by simp [rcar_i2c_store_byte, ha]), if_pos (by simp)]
  · -- valid length byte
    intro hd1 hd2
    have hval : (decide (data = 0) || decide (I2C_SMBUS_BLOCK_MAX < data)) = false := by
      simp only [Bool.or_eq_false_iff, decide_eq_false_iff_not]
      unfold I2C_SMBUS_BLOCK_MAX at hd2 ⊢
      omega
    by_cases hE : (rcar_i2c_dma (rcar_i2c_add_len (rcar_i2c_store_byte s data)) oc).1
        = true
    · have hr : (rcar_i2c_irq_recv s true false data oc).1 =
          (rcar_i2c_dma (rcar_i2c_add_len (rcar_i2c_store_byte s data)) oc).2.1 := by
        unfold rcar_i2c_irq_recv
        rw [if_neg (by simp), if_neg (by simp), if_pos hlt0, if_pos hrli,
          if_neg (by simp [hval]), if_pos hE]
      obtain ⟨glen, gsg⟩ := gspec hE
      have hread2 : (rcar_i2c_add_len (rcar_i2c_store_byte s data)).msg.read = true :=
        hread
      refine ⟨?_, ?_, ?_, ?_⟩
      · rw [hstep, hr, g2, hlen2]
      · rw [hstep, hr, g5]
        exact hdone
      · intro _
        constructor
        · rw [hstep, hr, gsg]
          simp [hread2, hlen2]
        · rw [hstep, hr, g1, (store_add_fields s data).1]
          exact hpos
      · intro hcon
        exact absurd ((dma_engaged_iff _ oc).mp hE) hcon
    · have hr : (rcar_i2c_irq_recv s true false data oc).1 =
          (rcar_i2c_recv_finish
            { (rcar_i2c_dma (rcar_i2c_add_len (rcar_i2c_store_byte s data)) oc).2.1 with
              pos := (rcar_i2c_dma (rcar_i2c_add_len
                (rcar_i2c_store_byte s data)) oc).2.1.pos + 1 }
            false MDR (Action.readICRXTX :: (rcar_i2c_dma (rcar_i2c_add_len
              (rcar_i2c_store_byte s data)) oc).2.2)).1 := by
        unfold rcar_i2c_irq_recv
        rw [if_neg (by simp), if_neg (by simp), if_pos hlt0, if_pos hrli,
          if_neg (by simp [hval]), if_neg hE]
      have hEf : (rcar_i2c_dma (rcar_i2c_add_len (rcar_i2c_store_byte s data)) oc).1
          = false := by
        cases hv : (rcar_i2c_dma (rcar_i2c_add_len (rcar_i2c_store_byte s data)) oc).1
        · rfl
        · exact absurd hv hE
      have hnone : (rcar_i2c_dma (rcar_i2c_add_len
          (rcar_i2c_store_byte s data)) oc).2.1.dmaSg = none := by
        rcases gne hEf with h | h
        · rw [h, (store_add_fields s data).2.2.1, hdma]
        · exact h
      have hne : ({ (rcar_i2c_dma (rcar_i2c_add_len (rcar_i2c_store_byte s data)) oc).2.1
          with pos := (rcar_i2c_dma (rcar_i2c_add_len
            (rcar_i2c_store_byte s data)) oc).2.1.pos + 1 } : DriverState).pos ≠
          ({ (rcar_i2c_dma (rcar_i2c_add_len (rcar_i2c_store_byte s data)) oc).2.1
          with pos := (rcar_i2c_dma (rcar_i2c_add_len
            (rcar_i2c_store_byte s data)) oc).2.1.pos + 1 } : DriverState).msg.len := by
        show (rcar_i2c_dma (rcar_i2c_add_len (rcar_i2c_store_byte s data)) oc).2.1.pos
            + 1 ≠
          (rcar_i2c_dma (rcar_i2c_add_len (rcar_i2c_store_byte s data)) oc).2.1.msg.len
        rw [g1, g2, hlen2, (store_add_fields s data).1, hpos]
        omega
      obtain ⟨n1, n2, n3, n4, n5, n6, n7, n8, n9⟩ :=
        recv_finish_no_advance hne false MDR
          (Action.readICRXTX :: (rcar_i2c_dma (rcar_i2c_add_len
            (rcar_i2c_store_byte s data)) oc).2.2)
      refine ⟨?_, ?_, ?_, ?_⟩
      · rw [hstep, hr, n2]
        show (rcar_i2c_dma (rcar_i2c_add_len
          (rcar_i2c_store_byte s data)) oc).2.1.msg.len = s.msg.len + data
        rw [g2, hlen2]
      · rw [hstep, hr, n4]
        show (rcar_i2c_dma (rcar_i2c_add_len
          (rcar_i2c_store_byte s data)) oc).2.1.done = false
        rw [g5]
        exact hdone
      · intro hcon
        exact absurd ((dma_engaged_iff _ oc).mpr hcon) hE
      · intro _
        constructor
        · rw [hstep, hr, n1]
          show (rcar_i2c_dma (rcar_i2c_add_len
            (rcar_i2c_store_byte s data)) oc).2.1.pos + 1 = 1
          rw [g1, (store_add_fields s data).1, hpos]
        · rw [hstep, hr, n3]
          show (rcar_i2c_dma (rcar_i2c_add_len
            (rcar_i2c_store_byte s data)) oc).2.1.dmaSg = none
          exact hnone

/-- A concrete one-byte RECV_LEN receive state used as the C4 witness input. -/
def c4wState : DriverState :=
  { lastMsg := true, repAfterRd := false, done := false, arblost := false,
    nack := false, eproto := false, notAtomic := true, noRxdma := false,
    pos := 0,
    msg := { addr := 80, read := true, recvLen := true, dmaSafe := false,
             len := 1, buf := fun _ => 0 },
    pending := [], msgsLeft := 1, dmaSg := none, devtype := .gen3,
    txChanOk := false, rxChanOk := false }

/-- An 8-byte DMA-safe receive state used as the C5 witness input. -/
def c5wState : DriverState :=
  { lastMsg := true, repAfterRd := false, done := false, arblost := false,
    nack := false, eproto := false, notAtomic := true, noRxdma := false,
    pos := 0,
    msg := { addr := 80, read := true, recvLen := false, dmaSafe := true,
             len := 8, buf := fun _ => 0 },
    pending := [], msgsLeft := 1, dmaSg := none, devtype := .gen3,
    txChanOk := false, rxChanOk := true }

/-- A one-byte-write active state used as the C6 witness input. -/
def c6wState : DriverState :=
  { lastMsg := true, repAfterRd := false, done := false, arblost := false,
    nack := false, eproto := false, notAtomic := true, noRxdma := false,
    pos := 0,
    msg := { addr := 80, read := false, recvLen := false, dmaSafe := false,
             len := 1, buf := fun _ => 0 },
    pending := [], msgsLeft := 1, dmaSg := none, devtype := .gen2,
    txChanOk := false, rxChanOk := false }

/-- An 8-byte DMA-safe transmit state at position 1 used as the C9 witness
input. -/
def c9wState : DriverState :=
  { lastMsg := true, repAfterRd := false, done := false, arblost := false,
    nack := false, eproto := false, notAtomic := true, noRxdma := false,
    pos := 1,
    msg := { addr := 80, read := false, recvLen := false, dmaSafe := true,
             len := 8, buf := fun _ => 0 },
    pending := [], msgsLeft := 1, dmaSg := none, devtype := .gen3,
    txChanOk := true, rxChanOk := false }

/-- Witness for C4: a first RECV_LEN byte of 0 terminates with the done
and protocol-error flags and the `-EPROTO` result. -/
theorem rcar_recv_len_protocol_witness :
    (rcar_i2c_step c4wState (Event.dataEv true true false 0 DmaOutcome.ok)).1.done = true ∧
    (rcar_i2c_step c4wState (Event.dataEv true true false 0 DmaOutcome.ok)).1.eproto = true ∧
    rcar_i2c_xfer_result 1
      (rcar_i2c_step c4wState (Event.dataEv true true false 0 DmaOutcome.ok)).1 false = -71 :=
  (rcar_recv_len_protocol c4wState 1 0 true DmaOutcome.ok rfl rfl rfl rfl rfl
    (by decide) rfl rfl).1 (Or.inl rfl)

/-- C5.  DMA engages only when every eligibility condition holds
(non-atomic mode, a channel for the direction, message length at least
`RCAR_MIN_DMA_LEN` = 8, DMA-safe buffer, and — for receive — the
RX-DMA-forbidden flag clear) and the submission oracle succeeds; when it
engages it covers only the buffer interior: `len - 2` bytes from offset 0
for a receive (the final two bytes stay byte-wise) and `len - 1` bytes
from offset 1 for a transmit.  In particular an 8-byte receive covers
exactly its interior 6 bytes, and a 7-byte buffer is never eligible. -/
theorem rcar_dma_eligibility (s : DriverState) (oc : DmaOutcome) :
    (rcar_i2c_dma_feasible s = true ↔
      (s.notAtomic = true ∧ (if s.msg.read then s.rxChanOk else s.txChanOk) = true ∧
        RCAR_MIN_DMA_LEN ≤ s.msg.len ∧ s.msg.dmaSafe = true ∧
        (s.msg.read = true → s.noRxdma = false))) ∧
    ((rcar_i2c_dma s oc).1 = true →
      rcar_i2c_dma_feasible s = true ∧ oc = DmaOutcome.ok ∧
      (s.msg.read = true → (rcar_i2c_dma s oc).2.1.dmaSg =
        some { fromDev := true, off := 0, len := s.msg.len - 2 }) ∧
      (s.msg.read = false → (rcar_i2c_dma s oc).2.1.dmaSg =
        some { fromDev := false, off := 1, len := s.msg.len - 1 })) ∧
    (s.msg.len = 8 → s.msg.read = true → (rcar_i2c_dma s oc).1 = true →
      (rcar_i2c_dma s oc).2.1.dmaSg = some { fromDev := true, off := 0, len := 6 }) ∧
    (s.msg.len = 7 → (rcar_i2c_dma s oc).1 = false) := by
  obtain ⟨e1, e2, e3, e4, e5, e6, e7, e8, e9, e10, e11, hspec, hne⟩ := dma_spec s oc
  refine ⟨?_, ?_, ?_, ?_⟩
  · unfold rcar_i2c_dma_feasible
    cases hr : s.msg.read <;> cases hx : s.noRxdma <;>
      simp [Bool.and_eq_true, decide_eq_true_eq] <;> tauto
  · intro heng
    obtain ⟨hlen8, hsg⟩ := hspec heng
    refine ⟨((dma_engaged_iff s oc).mp heng).1, ((dma_engaged_iff s oc).mp heng).2,
      ?_, ?_⟩
    · intro hr
      rw [hsg]
      simp [hr]
    · intro hr
      rw [hsg]
      simp [hr]
  · intro h8 hr heng
    obtain ⟨hlen8, hsg⟩ := hspec heng
    rw [hsg]
    simp [hr, h8]
  · intro h7
    have hf : rcar_i2c_dma_feasible s = false := by
      unfold rcar_i2c_dma_feasible
      simp [h7, RCAR_MIN_DMA_LEN]
    cases hv : (rcar_i2c_dma s oc).1
    · rfl
    · have hc := (dma_engaged_iff s oc).mp hv
      rw [hf] at hc
      exact Bool.noConfusion hc.1

/-- Witness for C5: an 8-byte DMA-safe receive in non-atomic mode with an
RX channel engages over its interior 6 bytes. -/
theorem rcar_dma_eligibility_witness :
    (rcar_i2c_dma c5wState DmaOutcome.ok).2.1.dmaSg =
      some { fromDev := true, off := 0, len := 6 } :=
  (rcar_dma_eligibility c5wState DmaOutcome.ok).2.2.1 rfl rfl (by decide)

/-- C6.  On a NACK status event: the handler writes no master-control
value at all (in particular it programs no stop phase — hardware issues
the stop automatically); the NACK flag is set and done stays clear; in
non-atomic mode the only register access is narrowing the
interrupt-enable mask to the stop bit, and in atomic mode there is none;
any state with the NACK flag maps to the `-ENXIO` result; and `-ENXIO` is
the only negative result for which no diagnostic error is logged. -/
theorem rcar_nack_handling (s : DriverState) (num : ℤ) (hdone : s.done = false) :
    (rcar_i2c_step s Event.nackEv).1.nack = true ∧
    (rcar_i2c_step s Event.nackEv).1.done = false ∧
    (∀ v : ℕ, Action.writeICMCR v ∉ (rcar_i2c_step s Event.nackEv).2) ∧
    (s.notAtomic = true →
      (rcar_i2c_step s Event.nackEv).2 = [Action.writeICMIER RCAR_IRQ_STOP]) ∧
    (s.notAtomic = false → (rcar_i2c_step s Event.nackEv).2 = []) ∧
    (∀ s2 : DriverState, s2.nack = true → rcar_i2c_xfer_result num s2 false = -6) ∧
    (∀ ret : ℤ, ret < 0 → (rcar_i2c_logs_error ret = false ↔ ret = -6)) := by
  have hres : rcar_i2c_step s Event.nackEv =
      ({ s with nack := true },
        if s.notAtomic = true then [Action.writeICMIER RCAR_IRQ_STOP] else []) := by
    unfold rcar_i2c_step rcar_out_block
    rw [if_neg (by simp [hdone])]
    dsimp only
    rw [if_neg (by simp [hdone])]
  rw [hres]
  refine ⟨rfl, hdone, ?_, ?_, ?_, ?_, ?_⟩
  · intro v
    by_cases hna : s.notAtomic = true <;> simp [hna]
  · intro h
    rw [if_pos h]
  · intro h
    rw [if_neg (by simp [h])]
  · intro s2 h2
    unfold rcar_i2c_xfer_result
    rw [if_neg (by simp), if_pos h2]
  · intro ret hlt
    unfold rcar_i2c_logs_error
    rw [decide_eq_true hlt, Bool.true_and]
    simp

/-- Witness for C6 in non-atomic mode. -/
theorem rcar_nack_handling_witness :
    (rcar_i2c_step c6wState Event.nackEv).1.nack = true ∧
    (rcar_i2c_step c6wState Event.nackEv).2 = [Action.writeICMIER RCAR_IRQ_STOP] := by
  have h := rcar_nack_handling c6wState 1 rfl
  exact ⟨h.1, h.2.2.2.1 rfl⟩

/-- C9.  Every failing DMA attempt (map failure, descriptor-prep failure,
submit failure — any oracle other than success) reports `false` to its
caller, leaves no scatterlist engaged, and changes none of the flags or
counters that feed the transfer result, so the result mapping is
untouched; the transmit handler then continues byte-wise, pushing the
next byte and advancing the position. -/
theorem rcar_dma_failure_silent (s : DriverState) (oc : DmaOutcome) (num : ℤ)
    (t : Bool) (hoc : oc ≠ DmaOutcome.ok) (hdma : s.dmaSg = none) :
    ((rcar_i2c_dma s oc).1 = false ∧
     (rcar_i2c_dma s oc).2.1.dmaSg = none ∧
     (rcar_i2c_dma s oc).2.1.done = s.done ∧
     (rcar_i2c_dma s oc).2.1.nack = s.nack ∧
     (rcar_i2c_dma s oc).2.1.arblost = s.arblost ∧
     (rcar_i2c_dma s oc).2.1.eproto = s.eproto ∧
     (rcar_i2c_dma s oc).2.1.pos = s.pos ∧
     (rcar_i2c_dma s oc).2.1.msgsLeft = s.msgsLeft ∧
     rcar_i2c_xfer_result num (rcar_i2c_dma s oc).2.1 t =
       rcar_i2c_xfer_result num s t) ∧
    (s.pos = 1 → s.pos < s.msg.len →
      (rcar_i2c_irq_send s true false oc).1.pos = 2 ∧
      Action.writeICRXTX (s.msg.buf 1) ∈ (rcar_i2c_irq_send s true false oc).2) := by
  obtain ⟨e1, e2, e3, e4, e5, e6, e7, e8, e9, e10, e11, hspec, hne⟩ := dma_spec s oc
  have hengf : (rcar_i2c_dma s oc).1 = false := by
    cases hv : (rcar_i2c_dma s oc).1
    · rfl
    · exact absurd ((dma_engaged_iff s oc).mp hv).2 hoc
  have hnone : (rcar_i2c_dma s oc).2.1.dmaSg = none := by
    rcases hne hengf with h | h
    · rw [h, hdma]
    · exact h
  refine ⟨⟨hengf, hnone, e5, e7, e6, e8, e1, e4, ?_⟩, ?_⟩
  · unfold rcar_i2c_xfer_result
    rw [e7, e6, e8, e4]
  · intro hp1 hlt
    have hcond : ¬ (s.pos = 1 ∧ (rcar_i2c_dma s oc).1 = true) := by
      simp [hengf]
    have hlt2 : (if s.pos = 1 then (rcar_i2c_dma s oc).2.1 else s).pos <
        (if s.pos = 1 then (rcar_i2c_dma s oc).2.1 else s).msg.len := by
      rw [if_pos hp1, e1, e2]
      omega
    constructor
    · show (rcar_i2c_irq_send s true false oc).1.pos = 2
      unfold rcar_i2c_irq_send rcar_i2c_send_body
      rw [if_neg (by simp), if_neg hcond, if_pos hlt2]
      show (if s.pos = 1 then (rcar_i2c_dma s oc).2.1 else s).pos + 1 = 2
      rw [if_pos hp1, e1]
      omega
    · unfold rcar_i2c_irq_send rcar_i2c_send_body
      rw [if_neg (by simp), if_neg hcond, if_pos hlt2]
      dsimp only
      simp only [if_pos hp1]
      rw [e1, e2, hp1]
      exact List.mem_append.mpr (Or.inr (List.mem_cons_self _ _))

/-- Witness for C9: a map failure on a feasible 8-byte transmit at
position 1 declines DMA and the handler continues byte-wise. -/
theorem rcar_dma_failure_silent_witness :
    (rcar_i2c_dma c9wState DmaOutcome.mapFail).1 = false ∧
    (rcar_i2c_irq_send c9wState true false DmaOutcome.mapFail).1.pos = 2 := by
  have h := rcar_dma_failure_silent c9wState DmaOutcome.mapFail 1 false (by decide) rfl
  exact ⟨h.1.1, (h.2 rfl (by decide)).1⟩

/-! ### Terminal cleanup -/

lemma no_wake_dma (s : DriverState) (oc : DmaOutcome) :
    Action.wake ∉ (rcar_i2c_dma s oc).2.2 := by
  unfold rcar_i2c_dma rcar_i2c_cleanup_dma
  split
  · cases oc <;> simp
  · simp

lemma no_wake_prepare (s : DriverState) :
    Action.wake ∉ (rcar_i2c_prepare_msg s).2 := by
  unfold rcar_i2c_prepare_msg
  by_cases h1 : s.notAtomic = true <;> by_cases h2 : s.repAfterRd = true <;>
    simp [h1, h2]

lemma no_wake_next (s : DriverState) :
    Action.wake ∉ (rcar_i2c_next_msg s).2 := by
  unfold rcar_i2c_next_msg
  cases s.pending
  · exact no_wake_prepare _
  · exact no_wake_prepare _

lemma no_wake_send_body (s1 : DriverState) (pre : List Action) (irqs : ℕ)
    (hpre : Action.wake ∉ pre) :
    Action.wake ∉ (rcar_i2c_send_body s1 pre irqs).2 := by
  unfold rcar_i2c_send_body rcar_i2c_clear_irq
  split
  · simp [hpre]
  · split
    · simp [hpre]
    · simp [List.mem_append, hpre, no_wake_next s1]

lemma no_wake_phase (s : DriverState) (b : Bool) :
    Action.wake ∉ (rcar_i2c_recv_phase s b).2 := by
  unfold rcar_i2c_recv_phase
  split
  · split <;> simp
  · simp

lemma no_wake_advance (s1 : DriverState) :
    Action.wake ∉ (rcar_i2c_recv_advance s1).2 := by
  unfold rcar_i2c_recv_advance
  split
  · exact no_wake_next _
  · simp

lemma no_wake_finish (s : DriverState) (b : Bool) (irqs : ℕ) (pre : List Action)
    (hpre : Action.wake ∉ pre) :
    Action.wake ∉ (rcar_i2c_recv_finish s b irqs pre).2 := by
  unfold rcar_i2c_recv_finish rcar_i2c_clear_irq
  simp [List.mem_append, hpre, no_wake_phase s b,
    no_wake_advance (rcar_i2c_recv_phase s b).1]

lemma no_wake_send (s : DriverState) (mde mat : Bool) (oc : DmaOutcome) :
    Action.wake ∉ (rcar_i2c_irq_send s mde mat oc).2 := by
  unfold rcar_i2c_irq_send
  split
  · simp
  · split
    · exact no_wake_dma s oc
    · apply no_wake_send_body
      split
      · exact no_wake_dma s oc
      · simp

lemma no_wake_recv (s : DriverState) (mdr mat : Bool) (data : ℕ) (oc : DmaOutcome) :
    Action.wake ∉ (rcar_i2c_irq_recv s mdr mat data oc).2 := by
  unfold rcar_i2c_irq_recv
  split
  · simp
  · split
    · exact no_wake_finish _ _ _ _ (no_wake_dma s oc)
    · split
      · split
        · split
          · simp
          · split
            · simp [no_wake_dma (rcar_i2c_add_len (rcar_i2c_store_byte s data)) oc]
            · exact no_wake_finish _ _ _ _
                (by simp [no_wake_dma (rcar_i2c_add_len (rcar_i2c_store_byte s data)) oc])
        · exact no_wake_finish _ _ _ _ (by simp)
      · exact no_wake_finish _ _ _ _ (by simp)

lemma callback_done (s : DriverState) :
    (rcar_i2c_dma_callback s).1.done = s.done := by
  unfold rcar_i2c_dma_callback rcar_i2c_cleanup_dma
  split
  · rfl
  · rfl

lemma out_block_done (r : DriverState × List Action) (h : r.1.done = true)
    (hw : Action.wake ∉ r.2) :
    (rcar_out_block r).2 = r.2 ++ [Action.writeICMIER 0, Action.writeICMSR 0] ++
      (if (rcar_out_block r).1.notAtomic = true then [Action.wake] else []) ∧
    (Action.wake ∈ (rcar_out_block r).2 ↔ (rcar_out_block r).1.notAtomic = true) := by
  unfold rcar_out_block
  rw [if_pos h]
  refine ⟨rfl, ?_⟩
  by_cases hna : r.1.notAtomic = true <;> simp [hna, hw]

lemma done_cleanup_core (r : DriverState × List Action) (hw : Action.wake ∉ r.2)
    (hd : (rcar_out_block r).1.done = true) :
    ∃ pre : List Action,
      (rcar_out_block r).2 = pre ++ [Action.writeICMIER 0, Action.writeICMSR 0] ++
        (if (rcar_out_block r).1.notAtomic = true then [Action.wake] else []) ∧
      Action.wake ∉ pre ∧
      (Action.wake ∈ (rcar_out_block r).2 ↔ (rcar_out_block r).1.notAtomic = true) := by
  rw [out_block_fst] at hd
  obtain ⟨ho1, ho2⟩ := out_block_done r hd hw
  exact ⟨r.2, ho1, hw, ho2⟩

/-- C10.  Whenever a handler invocation from an active state ends with the
done flag set — whatever the terminal outcome — its register activity ends
with a write of 0 to ICMIER followed by a write of 0 to ICMSR, and the
waiting thread is woken only after those two writes and only in non-atomic
mode. -/
theorem rcar_done_cleanup (s : DriverState) (e : Event)
    (hdone : s.done = false) (hdone2 : (rcar_i2c_step s e).1.done = true) :
    ∃ pre : List Action,
      (rcar_i2c_step s e).2 =
        pre ++ [Action.writeICMIER 0, Action.writeICMSR 0] ++
          (if (rcar_i2c_step s e).1.notAtomic = true then [Action.wake] else []) ∧
      Action.wake ∉ pre ∧
      (Action.wake ∈ (rcar_i2c_step s e).2 ↔
        (rcar_i2c_step s e).1.notAtomic = true) := by
  cases e with
  | dmaDoneEv =>
      exfalso
      have h1 : rcar_i2c_step s Event.dmaDoneEv = rcar_i2c_dma_callback s := by
        unfold rcar_i2c_step
        rw [if_neg (by simp [hdone])]
      rw [h1, callback_done s, hdone] at hdone2
      exact Bool.noConfusion hdone2
  | nackEv =>
      exfalso
      have h1 : rcar_i2c_step s Event.nackEv =
          rcar_out_block ({ s with nack := true },
            if s.notAtomic = true then [Action.writeICMIER RCAR_IRQ_STOP] else []) := by
        unfold rcar_i2c_step
        rw [if_neg (by simp [hdone])]
      rw [h1, out_block_fst] at hdone2
      have hd : s.done = true := hdone2
      rw [hdone] at hd
      exact Bool.noConfusion hd
  | mal =>
      have h1 : rcar_i2c_step s Event.mal =
          rcar_out_block ({ s with done := true, arblost := true }, []) := by
        unfold rcar_i2c_step
        rw [if_neg (by simp [hdone])]
      rw [h1] at hdone2 ⊢
      exact done_cleanup_core _ (by simp) hdone2
  | stopEv =>
      have h1 : rcar_i2c_step s Event.stopEv =
          rcar_out_block ({ s with msgsLeft := s.msgsLeft - 1, done := true }, []) := by
        unfold rcar_i2c_step
        rw [if_neg (by simp [hdone])]
      rw [h1] at hdone2 ⊢
      exact done_cleanup_core _ (by simp) hdone2
  | dataEv mde mdr mat data oc =>
      have h1 : rcar_i2c_step s (Event.dataEv mde mdr mat data oc) =
          rcar_out_block
            (if s.dmaSg.isSome = true then (s, [])
             else if (mat && decide (s.pos ≠ 0)) = true then (s, [])
             else if s.msg.read = true then rcar_i2c_irq_recv s mdr mat data oc
             else rcar_i2c_irq_send s mde mat oc) := by
        unfold rcar_i2c_step
        rw [if_neg (by simp [hdone])]
      rw [h1] at hdone2 ⊢
      refine done_cleanup_core _ ?_ hdone2
      split
      · simp
      · split
        · simp
        · split
          · exact no_wake_recv s mdr mat data oc
          · exact no_wake_send s mde mat oc

/-- Witness for C10: an arbitration loss from an active state ends with the
masked-off ICMIER, the cleared ICMSR, and the wake-up. -/
theorem rcar_done_cleanup_witness :
    ∃ pre : List Action,
      (rcar_i2c_step c6wState Event.mal).2 =
        pre ++ [Action.writeICMIER 0, Action.writeICMSR 0] ++
          (if (rcar_i2c_step c6wState Event.mal).1.notAtomic = true
           then [Action.wake] else []) ∧
      Action.wake ∉ pre ∧
      (Action.wake ∈ (rcar_i2c_step c6wState Event.mal).2 ↔
        (rcar_i2c_step c6wState Event.mal).1.notAtomic = true) :=
  rcar_done_cleanup c6wState Event.mal rfl rfl

/-! ### Interrupt front-end entries -/

/-- C8 counterexample: the Gen2 entry does *not* write the data-phase
value unconditionally — during a repeated start after a read it skips the
write entirely. -/
theorem rcar_gen2_entry_counterexample :
    Action.writeICMCR RCAR_BUS_PHASE_DATA ∉ rcar_i2c_gen2_entry true true := by
  decide

/-- C8 (amended).  The legacy (Gen2) entry writes the data-phase value
before reading the status register whenever no repeated start after a read
is in progress — regardless of spuriousness — and writes it exactly under
that condition; the later (Gen3) entry reads the status register first and
writes the data-phase value only if no repeated start after a read is in
progress and the masked status is nonzero. -/
theorem rcar_irq_entry_order (rep na : Bool) (msr : ℕ) :
    (rep = false →
      rcar_i2c_gen2_entry rep na =
        Action.writeICMCR RCAR_BUS_PHASE_DATA :: Action.readICMSR ::
          (if na = true then [Action.readICMIER] else [])) ∧
    (Action.writeICMCR RCAR_BUS_PHASE_DATA ∈ rcar_i2c_gen2_entry rep na ↔
      rep = false) ∧
    (rcar_i2c_gen3_entry rep na msr).head? = some Action.readICMSR ∧
    (Action.writeICMCR RCAR_BUS_PHASE_DATA ∈ rcar_i2c_gen3_entry rep na msr ↔
      (rep = false ∧ msr ≠ 0)) := by
  refine ⟨?_, ?_, ?_, ?_⟩
  · intro h
    unfold rcar_i2c_gen2_entry
    rw [h]
    cases na <;> rfl
  · unfold rcar_i2c_gen2_entry
    cases rep <;> cases na <;> simp
  · unfold rcar_i2c_gen3_entry
    cases na <;> rfl
  · unfold rcar_i2c_gen3_entry
    cases rep <;> cases na <;> by_cases hm : msr = 0 <;> simp [hm]

/-- Witness for C8: outside a repeated start after read the Gen2 entry
writes the data phase first, then reads (and masks) the status. -/
theorem rcar_irq_entry_order_witness :
    rcar_i2c_gen2_entry false true =
      Action.writeICMCR RCAR_BUS_PHASE_DATA :: Action.readICMSR ::
        (if (true : Bool) = true then [Action.readICMIER] else []) :=
  (rcar_irq_entry_order false true 5).1 rfl

end RcarI2c
